import Mathlib

/-!
# Deck score calculator (`src/content.js`)

A shallow embedding of the `DeckScoreCalculator` class of the content script.

Modelling conventions.

* A JavaScript number is an IEEE 754 double.  Every number this script computes is an
  integer-valued double, an infinity or `NaN` (`JSNum`): `parseInt` yields integers, and
  sums, differences and products of integers are rounded to the nearest double
  (`JSNum.ofInt`, ties to even, overflow to an infinity).  The sign of zero is not
  observable in the script (`-0 || 0`, `-0 > 0`, and the text of `-0` is `0`), so `-0`
  and `0` are one value.
* JavaScript strings are modelled by `String`; all characters the code inspects are in
  the Basic Multilingual Plane, so matching by code point and by UTF-16 unit agree.
* A plain JavaScript object is an association list of its own properties in insertion
  order (`JSObject`); `objectEntries` gives the order used by `Object.entries`.
* The document is the forest of the children of `<body>` in first-child / next-sibling
  form (`Dom`); only elements are kept.  The `html`, `head` and `body` elements
  themselves carry no id in the model.
* The HTML parser behind `innerHTML` belongs to the browser, not to the script; it is a
  parameter (`Browser.parseHTML`) that gives the elements created from a markup string.
-/

namespace DeckScore

/-! ## Strings -/

/-- ECMAScript `WhiteSpace` and `LineTerminator` code points: what `\s` matches, what
`String.prototype.trim` removes and what `parseInt` skips. -/
def isJSWhitespace (c : Char) : Bool :=
  let n := c.toNat
  n == 0x09 || n == 0x0A || n == 0x0B || n == 0x0C || n == 0x0D || n == 0x20 ||
  n == 0xA0 || n == 0x1680 || (0x2000 ≤ n && n ≤ 0x200A) || n == 0x2028 ||
  n == 0x2029 || n == 0x202F || n == 0x205F || n == 0x3000 || n == 0xFEFF

/-- The regular-expression class `\d`: the ASCII digits. -/
def isDigit (c : Char) : Bool :=
  0x30 ≤ c.toNat && c.toNat ≤ 0x39

/-- Value of a character as a digit of radix up to 16 (`0-9`, `a-f`, `A-F`). -/
def digitValue (c : Char) : Option Nat :=
  let n := c.toNat
  if 0x30 ≤ n && n ≤ 0x39 then some (n - 0x30)
  else if 0x61 ≤ n && n ≤ 0x66 then some (n - 0x61 + 10)
  else if 0x41 ≤ n && n ≤ 0x46 then some (n - 0x41 + 10)
  else none

/-- Whether `c` is a digit of the given radix. -/
def isRadixDigit (radix : Nat) (c : Char) : Bool :=
  match digitValue c with
  | some d => d < radix
  | none => false

/-- Mathematical value of a digit string in the given radix, most significant first. -/
def digitsToNat (radix : Nat) (ds : List Char) : Nat :=
  ds.foldl (fun acc c => acc * radix + (digitValue c).getD 0) 0

/-- Decimal digits of a natural number, most significant first. -/
def natToDigits (n : Nat) : List Char :=
  Nat.toDigits 10 n

/-! ## Numbers -/

/-- The numbers of the script: `NaN`, the two infinities, and the doubles that are
integers (`fin n`, with `-0` identified with `0`). -/
inductive JSNum where
  | nan
  | posInf
  | negInf
  | fin (n : Int)
  deriving DecidableEq, Repr

/-- Number of binary digits of `n`, computed by halving (the first argument bounds the
number of steps). -/
def bitLengthAux : Nat → Nat → Nat
  | 0, _ => 0
  | fuel + 1, n => if n = 0 then 0 else bitLengthAux fuel (n / 2) + 1

/-- Number of binary digits of `n`. -/
def bitLength (n : Nat) : Nat :=
  bitLengthAux n n

/-- The double nearest to the natural number `m` (53-bit significand, ties to the even
significand); `none` when the result is `Infinity`. -/
def roundNat (m : Nat) : Option Nat :=
  if m ≤ 2 ^ 53 then some m
  else
    let e := bitLength m - 53
    let q := m / 2 ^ e
    let r := m % 2 ^ e
    let q1 := if 2 * r > 2 ^ e ∨ (2 * r = 2 ^ e ∧ q % 2 = 1) then q + 1 else q
    if bitLength q1 + e > 1024 then none else some (q1 * 2 ^ e)

/-- The number value of a mathematical integer: the nearest double. -/
def JSNum.ofInt : Int → JSNum
  | Int.ofNat m =>
    match roundNat m with
    | some r => .fin r
    | none => .posInf
  | Int.negSucc m =>
    match roundNat (m + 1) with
    | some r => .fin (-(r : Int))
    | none => .negInf

/-- The number value of a natural number. -/
def JSNum.ofNat (n : Nat) : JSNum :=
  JSNum.ofInt n

/-- Unary minus. -/
def JSNum.neg : JSNum → JSNum
  | .nan => .nan
  | .posInf => .negInf
  | .negInf => .posInf
  | .fin n => .fin (-n)

/-- The operator `+` on numbers. -/
def JSNum.add : JSNum → JSNum → JSNum
  | .nan, _ => .nan
  | _, .nan => .nan
  | .posInf, .negInf => .nan
  | .negInf, .posInf => .nan
  | .posInf, _ => .posInf
  | _, .posInf => .posInf
  | .negInf, _ => .negInf
  | _, .negInf => .negInf
  | .fin a, .fin b => JSNum.ofInt (a + b)

/-- The operator `-` on numbers. -/
def JSNum.sub (x y : JSNum) : JSNum :=
  JSNum.add x (JSNum.neg y)

/-- The product of an infinity with a finite number of the given value: `NaN` for
zero, otherwise the infinity of the product sign. -/
def JSNum.infTimes (positive : Bool) (a : Int) : JSNum :=
  if a = 0 then .nan
  else if (decide (a > 0)) = positive then .posInf else .negInf

/-- The operator `*` on numbers. -/
def JSNum.mul : JSNum → JSNum → JSNum
  | .nan, _ => .nan
  | _, .nan => .nan
  | .posInf, .posInf => .posInf
  | .negInf, .negInf => .posInf
  | .posInf, .negInf => .negInf
  | .negInf, .posInf => .negInf
  | .posInf, .fin a => JSNum.infTimes true a
  | .fin a, .posInf => JSNum.infTimes true a
  | .negInf, .fin a => JSNum.infTimes false a
  | .fin a, .negInf => JSNum.infTimes false a
  | .fin a, .fin b => JSNum.ofInt (a * b)

/-- The operator `>` on numbers; every comparison with `NaN` is false. -/
def JSNum.gt : JSNum → JSNum → Bool
  | .nan, _ => false
  | _, .nan => false
  | .posInf, .posInf => false
  | .posInf, _ => true
  | _, .posInf => false
  | .negInf, _ => false
  | .fin _, .negInf => true
  | .fin a, .fin b => decide (a > b)

/-- Number of decimal digits of a positive natural number. -/
def decimalLength (m : Nat) : Nat :=
  (natToDigits m).length

/-- The search of `Number::toString` for the shortest decimal that denotes the double
`x`: for `k = 1, 2, …` significant digits, the `k`-digit decimals next below and next
above `x` are tried; the result is `(s, k, n)` with `x` the double of `s * 10 ^ (n - k)`.
The first argument bounds the number of steps. -/
def shortestDecimalAux (x : Nat) : Nat → Nat → Nat × Nat × Nat
  | 0, k => (x, k, decimalLength x)
  | fuel + 1, k =>
    let d := decimalLength x
    let p := 10 ^ (d - k)
    let s0 := x / p
    let lo := decide (roundNat (s0 * p) = some x)
    let hi := decide (roundNat ((s0 + 1) * p) = some x)
    let pickHi : Nat × Nat × Nat :=
      if s0 + 1 = 10 ^ k then (10 ^ (k - 1), k, d + 1) else (s0 + 1, k, d)
    if lo && hi then
      if x - s0 * p < (s0 + 1) * p - x then (s0, k, d)
      else if (s0 + 1) * p - x < x - s0 * p then pickHi
      else if s0 % 2 = 0 then (s0, k, d) else pickHi
    else if lo then (s0, k, d)
    else if hi then pickHi
    else if k ≥ d then (x, d, d)
    else shortestDecimalAux x fuel (k + 1)

/-- The text of a positive integer-valued double (`Number::toString`, radix 10): all
digits below `2 ^ 53`, where every integer is a double; otherwise the shortest decimal
that denotes the double, padded with zeros below `10 ^ 21` and in exponent form from
`10 ^ 21` on. -/
def natNumberToString (x : Nat) : List Char :=
  if x < 2 ^ 53 then natToDigits x
  else
    let skn := shortestDecimalAux x (decimalLength x) 1
    let s := skn.1
    let k := skn.2.1
    let n := skn.2.2
    if n ≤ 21 then natToDigits s ++ List.replicate (n - k) '0'
    else
      match natToDigits s with
      | [] => []
      | c :: rest =>
        (if rest.isEmpty then [c] else c :: '.' :: rest) ++ 'e' :: '+' :: natToDigits (n - 1)

/-- The operation `Number::toString` on the numbers of the script. -/
def JSNum.toJSString : JSNum → String
  | .nan => "NaN"
  | .posInf => "Infinity"
  | .negInf => "-Infinity"
  | .fin (Int.ofNat m) => String.mk (natNumberToString m)
  | .fin (Int.negSucc m) => String.mk ('-' :: natNumberToString (m + 1))

/-! ## JavaScript values and objects -/

/-- The primitive values a score table entry can hold; `num n` is the number written
as the integer literal `n`, that is the double nearest to `n`. -/
inductive JSValue where
  | undefined
  | null
  | bool (b : Bool)
  | num (n : Int)
  | str (s : String)
  deriving DecidableEq, Repr

/-- Abstract operation `ToString` on the modelled primitives. -/
def JSValue.toJSString : JSValue → String
  | .undefined => "undefined"
  | .null => "null"
  | .bool true => "true"
  | .bool false => "false"
  | .num n => (JSNum.ofInt n).toJSString
  | .str s => s

/-- Own properties of a plain object, in insertion order. -/
abbrev JSObject (α : Type) := List (String × α)

/-- Property read `obj[key]`; `none` stands for the `undefined` of a missing key. -/
def JSObject.get {α : Type} (obj : JSObject α) (key : String) : Option α :=
  match obj with
  | [] => none
  | (k, v) :: rest => if k = key then some v else JSObject.get rest key

/-- Property write `obj[key] = v`: an existing key keeps its position, a new key is
appended. -/
def JSObject.set {α : Type} (obj : JSObject α) (key : String) (v : α) : JSObject α :=
  match obj with
  | [] => [(key, v)]
  | (k, w) :: rest => if k = key then (k, v) :: rest else (k, w) :: JSObject.set rest key v

/-- Whether a property key is an array index: a canonical decimal numeral below
`2 ^ 32 - 1`. -/
def isArrayIndex (key : String) : Bool :=
  match key.data with
  | [] => false
  | c :: cs =>
    (c :: cs).all isDigit && (cs.isEmpty || c != '0') &&
      decide (digitsToNat 10 (c :: cs) < 4294967295)

/-- The call `Object.entries(obj)`: array-index keys in ascending numeric order, then the other
string keys in insertion order. -/
def objectEntries {α : Type} (obj : JSObject α) : List (String × α) :=
  (obj.filter (fun p => isArrayIndex p.1)).insertionSort
      (fun p q => digitsToNat 10 p.1.data ≤ digitsToNat 10 q.1.data)
    ++ obj.filter (fun p => !isArrayIndex p.1)

/-- The optional sign consumed by `parseInt`, with the rest of the text; the flag is
true for a minus sign. -/
def stripSign (s : List Char) : Bool × List Char :=
  match s with
  | [] => (false, [])
  | c :: r => if c = '-' then (true, r) else if c = '+' then (false, r) else (false, c :: r)

/-- The radix chosen by `parseInt` without a radix argument, with the text after an
optional `0x` / `0X` prefix. -/
def stripRadixPrefix (s : List Char) : Nat × List Char :=
  match s with
  | c :: d :: r => if c = '0' ∧ (d = 'x' ∨ d = 'X') then (16, r) else (10, c :: d :: r)
  | r => (10, r)

/-- The steps of `parseInt` on the string form of its argument: leading whitespace, an
optional sign, an optional `0x` prefix, the longest run of digits of the radix, and the
number value of the signed integer it denotes; `NaN` when the run is empty.  (For a
decimal run of more than 20 significant digits an engine may approximate the digits
after the 20th.) -/
def parseIntChars (s : List Char) : JSNum :=
  let signed := stripSign (s.dropWhile isJSWhitespace)
  let based := stripRadixPrefix signed.2
  let z := based.2.takeWhile (isRadixDigit based.1)
  if z.isEmpty then .nan
  else
    let m : Int := (digitsToNat based.1 z : Nat)
    JSNum.ofInt (if signed.1 then -m else m)

/-- Global `parseInt(v)` without a radix argument. -/
def parseInt (v : JSValue) : JSNum :=
  parseIntChars v.toJSString.data

/-- The expression `x || 0` for a number `x`: `NaN` and `0` are falsy. -/
def orZero : JSNum → JSNum
  | .nan => .fin 0
  | x => x

/-! ## The calculator -/

/-- Fields of a `DeckScoreCalculator` instance. -/
structure DeckScoreCalculator where
  scores : JSObject JSValue
  cardCounts : JSObject Nat
  cidToNameMap : JSObject String
  nameToCidMap : JSObject String
  totalScore : JSNum

/-- Method `getDefaultScores`. -/
def getDefaultScores : JSObject JSValue :=
  [("18050", .num 5)]

/-- Method `getScoreByCID`, as a function of the score table. -/
def getScoreByCID (scores : JSObject JSValue) (cid : String) : JSNum :=
  match scores.get cid with
  | none => .fin 0
  | some v => if v ≠ JSValue.undefined then orZero (parseInt v) else .fin 0

/-- The accumulation loop of `calculateScore` over the entries of the counts map:
`totalScore += cardScore * count`, starting from 0. -/
def scoreLoop (scores : JSObject JSValue) (entries : List (String × Nat)) : JSNum :=
  entries.foldl
    (fun total p => JSNum.add total (JSNum.mul (getScoreByCID scores p.1) (JSNum.ofNat p.2)))
    (.fin 0)

/-! ## Display names -/

/-- One optional asterisk `\*?`. -/
def skipStar : List Char → List Char
  | [] => []
  | c :: cs => if c = '*' then cs else c :: cs

/-- The optional `\*?\*?` at the start of both annotation patterns. -/
def skipStars (s : List Char) : List Char :=
  skipStar (skipStar s)

/-- The part `[^rb]*rb` of an annotation pattern: the text after the first closing
bracket, or `none` when there is no closing bracket. -/
def skipToClose (rb : Char) : List Char → Option (List Char)
  | [] => none
  | c :: cs => if c = rb then some cs else skipToClose rb cs

/-- The call `s.replace(/^\*?\*?LB[^RB]*RB\s*/g, "")` for a bracket pair `lb`, `rb`:
the text after the match when the pattern matches at the start, `none` otherwise. -/
def matchAnnot (lb rb : Char) (s : List Char) : Option (List Char) :=
  match skipStars s with
  | [] => none
  | c :: cs =>
    if c = lb then
      match skipToClose rb cs with
      | some rest => some (rest.dropWhile isJSWhitespace)
      | none => none
    else none

/-- Replacement of a leading annotation by the empty string; the text is unchanged
when the pattern does not match. -/
def stripAnnot (lb rb : Char) (s : List Char) : List Char :=
  (matchAnnot lb rb s).getD s

/-- The method `String.prototype.trim`. -/
def trimWs (s : List Char) : List Char :=
  ((s.dropWhile isJSWhitespace).reverse.dropWhile isJSWhitespace).reverse

/-- The call `s.replace(/\s+/g, ' ')`; the flag records that the previous character
belonged to a whitespace run already replaced. -/
def collapseWsAux : Bool → List Char → List Char
  | _, [] => []
  | inRun, c :: cs =>
    if isJSWhitespace c then
      if inRun then collapseWsAux true cs else ' ' :: collapseWsAux true cs
    else c :: collapseWsAux false cs

/-- Whitespace normalization: `s.trim().replace(/\s+/g, ' ')`. -/
def normalizeWs (s : List Char) : List Char :=
  collapseWsAux false (trimWs s)

/-- Method `cleanCardName`. -/
def cleanCardName (cardName : String) : String :=
  if cardName.data.isEmpty || "ID:".data.isPrefixOf cardName.data then cardName
  else
    let c1 := stripAnnot '【' '】' cardName.data
    let c2 := stripAnnot '[' ']' c1
    let c3 := normalizeWs c2
    if c3.isEmpty then cardName else String.mk c3

/-- Method `getCardName`, as a function of the identifier-to-name map. -/
def getCardName (cidToNameMap : JSObject String) (cid : String) : String :=
  let rawName :=
    match cidToNameMap.get cid with
    | some n => if n.data.isEmpty then "ID: " ++ cid else n
    | none => "ID: " ++ cid
  cleanCardName rawName

/-! ## Document -/

/-- The attributes of an element that the script reads or writes. -/
structure Element where
  tag : String
  id : String
  classList : List String
  href : Option String
  innerHTML : String
  deriving DecidableEq, Repr

/-- A forest of elements in first-child / next-sibling form: `node e children next` is
the element `e` with its children, followed by its next siblings. -/
inductive Dom where
  | nil
  | node (e : Element) (children : Dom) (next : Dom)
  deriving DecidableEq, Repr

/-- Concatenation of two forests of siblings. -/
def Dom.append : Dom → Dom → Dom
  | .nil, g => g
  | .node e ch nx, g => .node e ch (Dom.append nx g)

/-- Elements of a forest in document order, each with its children. -/
def Dom.nodes : Dom → List (Element × Dom)
  | .nil => []
  | .node e ch nx => (e, ch) :: (Dom.nodes ch ++ Dom.nodes nx)

/-- The first element in document order that satisfies `p`, with its children
(`querySelector`, `getElementById`). -/
def Dom.findFirst (p : Element → Bool) : Dom → Option (Element × Dom)
  | .nil => none
  | .node e ch nx =>
    if p e then some (e, ch)
    else
      match Dom.findFirst p ch with
      | some r => some r
      | none => Dom.findFirst p nx

/-- Detach the first element in document order that satisfies `p`, with its subtree
(`Element.remove` on the result of a lookup). -/
def Dom.removeFirst (p : Element → Bool) : Dom → Dom
  | .nil => .nil
  | .node e ch nx =>
    if p e then nx
    else
      match Dom.findFirst p ch with
      | some _ => .node e (Dom.removeFirst p ch) nx
      | none => .node e ch (Dom.removeFirst p nx)

/-- Insert the tree `(ne, nch)` as the first child of the first element in document
order that satisfies `p` (`target.insertBefore(new, target.firstChild)`). -/
def Dom.insertFirstChild (p : Element → Bool) (ne : Element) (nch : Dom) : Dom → Dom
  | .nil => .nil
  | .node e ch nx =>
    if p e then .node e (.node ne nch ch) nx
    else
      match Dom.findFirst p ch with
      | some _ => .node e (Dom.insertFirstChild p ne nch ch) nx
      | none => .node e ch (Dom.insertFirstChild p ne nch nx)

/-- The first child of a forest of children, as a tree. -/
def Dom.firstChild : Dom → Option (Element × Dom)
  | .nil => none
  | .node e ch _ => some (e, ch)

/-- The selector `#id`. -/
def hasId (id : String) (e : Element) : Bool :=
  e.id == id

/-- The selector `#id.card_set` of `extractCardData`. -/
def isCardSet (setType : String) (e : Element) : Bool :=
  e.id == setType && e.classList.contains "card_set"

/-- Whether `pat` occurs in the text as a contiguous substring. -/
def hasSubstring (pat : List Char) : List Char → Bool
  | [] => pat.isEmpty
  | c :: cs => pat.isPrefixOf (c :: cs) || hasSubstring pat cs

/-- The selector `a[href*="cid="]`. -/
def isCidLink (e : Element) : Bool :=
  e.tag == "a" &&
    match e.href with
    | some h => hasSubstring "cid=".data h.data
    | none => false

/-- The match `href.match(/cid=(\d+)/)`: capture group 1 of the leftmost match.  At each
start position the pattern matches when the text there begins with `cid=` followed by
at least one digit, and the group is the longest digit run. -/
def cidMatch : List Char → Option (List Char)
  | [] => none
  | c :: cs =>
    if "cid=".data.isPrefixOf (c :: cs) ∧
        ¬ (((c :: cs).drop 4).takeWhile isDigit).isEmpty then
      some (((c :: cs).drop 4).takeWhile isDigit)
    else cidMatch cs

/-- The identifier read from an anchor by the inner callback of `extractCardData`. -/
def linkCid (e : Element) : Option String :=
  match e.href with
  | some h => (cidMatch h.data).map String.mk
  | none => none

/-- The anchors `cardSet.querySelectorAll('a[href*="cid="]')` of a section, in document
order; empty when the section container is absent. -/
def cardLinks (doc : Dom) (setType : String) : List Element :=
  match Dom.findFirst (isCardSet setType) doc with
  | some (_, ch) => (ch.nodes.map Prod.fst).filter isCidLink
  | none => []

/-- The body of the inner `forEach` callback of `extractCardData`. -/
def countLink (counts : JSObject Nat) (link : Element) : JSObject Nat :=
  match linkCid link with
  | some cid => counts.set cid ((counts.get cid).getD 0 + 1)
  | none => counts

/-- Method `extractCardData`. -/
def extractCardData (this : DeckScoreCalculator) (doc : Dom) : DeckScoreCalculator :=
  { this with
    cardCounts :=
      ["main", "extra", "side"].foldl
        (fun counts setType => (cardLinks doc setType).foldl countLink counts) [] }

/-! ## Rendering -/

/-- The services of the browser that the script calls and whose code is not part of
the repository: the HTML fragment parser behind `innerHTML`, which gives the elements
created from a markup string. -/
structure Browser where
  parseHTML : String → Dom

/-- One entry of the breakdown built by `displayResults`. -/
structure ScoredCard where
  cid : String
  count : Nat
  score : JSNum
  totalScore : JSNum
  name : String
  deriving DecidableEq, Repr

/-- The method `Array.prototype.sort(cmp)`: a stable sort in which `a` stays before `b`
unless `cmp a b > 0` (a `NaN` result counts as 0).  ECMAScript 2019 requires stability;
the algorithm itself is left to the engine and is taken here to be insertion from the
right. -/
def jsSort {α : Type} (cmp : α → α → JSNum) (l : List α) : List α :=
  l.insertionSort (fun a b => (cmp a b).gt (.fin 0) = false)

/-- The callback of `.map` in `displayResults`. -/
def mkScoredCard (scores : JSObject JSValue) (cidToNameMap : JSObject String)
    (entry : String × Nat) : ScoredCard :=
  { cid := entry.1
    count := entry.2
    score := getScoreByCID scores entry.1
    totalScore := JSNum.mul (getScoreByCID scores entry.1) (JSNum.ofNat entry.2)
    name := getCardName cidToNameMap entry.1 }

/-- The chain `.map(...).filter(card => card.score > 0)` of `displayResults`. -/
def visibleCards (scores : JSObject JSValue) (cidToNameMap : JSObject String)
    (entries : List (String × Nat)) : List ScoredCard :=
  (entries.map (mkScoredCard scores cidToNameMap)).filter
    (fun card => card.score.gt (.fin 0))

/-- The list `scoredCards` of `displayResults`, from the entries of the counts map. -/
def scoredCardsOf (scores : JSObject JSValue) (cidToNameMap : JSObject String)
    (entries : List (String × Nat)) : List ScoredCard :=
  jsSort (fun a b => JSNum.sub b.totalScore a.totalScore)
    (visibleCards scores cidToNameMap entries)

/-- The list `scoredCards` of `displayResults`. -/
def scoredCards (this : DeckScoreCalculator) : List ScoredCard :=
  scoredCardsOf this.scores this.cidToNameMap (objectEntries this.cardCounts)

/-- The class chosen by `this.totalScore > 100 ? 'over-limit' : 'within-limit'`. -/
def statusClass (totalScore : JSNum) : String :=
  if totalScore.gt (.fin 100) then "over-limit" else "within-limit"

/-- The label chosen by the second conditional of the summary template. -/
def statusLabel (totalScore : JSNum) : String :=
  if totalScore.gt (.fin 100) then "⚠️ Over 100 Points" else "✅ Within 100 Points"

/-- The template assigned to `totalScoreElement.innerHTML`. -/
def totalScoreHTML (totalScore : JSNum) : String :=
  "\n      <h3>Total Genesys Score: " ++ totalScore.toJSString ++ "</h3>\n" ++
  "      <div class=\"score-status " ++ statusClass totalScore ++ "\">\n" ++
  "        " ++ statusLabel totalScore ++ "\n      </div>\n    "

/-- The template assigned to `listItem.innerHTML`. -/
def listItemHTML (card : ScoredCard) : String :=
  "\n          <span class=\"card-name\">" ++ card.name ++ "</span>\n" ++
  "          <span class=\"card-info\">\n" ++
  "            Score " ++ card.score.toJSString ++ " × " ++
    (JSNum.ofNat card.count).toJSString ++ " = " ++ card.totalScore.toJSString ++ "\n" ++
  "          </span>\n        "

/-- The `li` elements appended to the card list, as a forest of siblings; the children
of each are the elements parsed from its markup. -/
def listItems (browser : Browser) : List ScoredCard → Dom
  | [] => .nil
  | card :: rest =>
    .node { tag := "li", id := "", classList := [], href := none,
            innerHTML := listItemHTML card }
      (browser.parseHTML (listItemHTML card)) (listItems browser rest)

/-- The element `cardList` with its children. -/
def cardListNode (browser : Browser) (cards : List ScoredCard) : Element × Dom :=
  if cards.length = 0 then
    ({ tag := "ul", id := "", classList := ["card-score-list"], href := none,
       innerHTML := "<li>There`re no scored cards.</li>" },
     browser.parseHTML "<li>There`re no scored cards.</li>")
  else
    ({ tag := "ul", id := "", classList := ["card-score-list"], href := none,
       innerHTML := "" }, listItems browser cards)

/-- The element `resultContainer` created by `displayResults`. -/
def resultContainer : Element :=
  { tag := "div", id := "deck-score-result", classList := ["deck-score-container"],
    href := none, innerHTML := "" }

/-- The children appended to `resultContainer`: the summary block, and the details
block whose children are the parsed heading followed by the card list. -/
def resultChildren (browser : Browser) (this : DeckScoreCalculator) : Dom :=
  let cardList := cardListNode browser (scoredCards this)
  .node { tag := "div", id := "", classList := ["total-score"], href := none,
          innerHTML := totalScoreHTML this.totalScore }
    (browser.parseHTML (totalScoreHTML this.totalScore))
    (.node { tag := "div", id := "", classList := ["score-details"], href := none,
             innerHTML := "<h4>Details:</h4>" }
       (Dom.append (browser.parseHTML "<h4>Details:</h4>")
         (.node cardList.1 cardList.2 .nil)) .nil)

/-- The first statements of `displayResults`: the element found by
`getElementById('deck-score-result')`, if any, is removed with its subtree. -/
def removeExistingResult (doc : Dom) : Dom :=
  match doc.findFirst (hasId "deck-score-result") with
  | some _ => doc.removeFirst (hasId "deck-score-result")
  | none => doc

/-- The last statements of `displayResults`: the tree `(e, ch)` is inserted before the
first child of `document.querySelector('#article_body') || document.body`. -/
def insertIntoTarget (e : Element) (ch : Dom) (doc : Dom) : Dom :=
  match doc.findFirst (hasId "article_body") with
  | some _ => Dom.insertFirstChild (hasId "article_body") e ch doc
  | none => .node e ch doc

/-- Method `displayResults`: the document after the call. -/
def displayResults (browser : Browser) (this : DeckScoreCalculator) (doc : Dom) : Dom :=
  insertIntoTarget resultContainer (resultChildren browser this) (removeExistingResult doc)

/-- Method `calculateScore`: the instance and the document after the call. -/
def calculateScore (browser : Browser) (this : DeckScoreCalculator) (doc : Dom) :
    DeckScoreCalculator × Dom :=
  let this1 := extractCardData this doc
  let this2 := { this1 with
    totalScore := scoreLoop this1.scores (objectEntries this1.cardCounts) }
  (this2, displayResults browser this2 doc)

/-! ## Notions used to state the properties -/

/-- The elements of a forest with the given id, in document order. -/
def Dom.withId (id : String) (doc : Dom) : List (Element × Dom) :=
  doc.nodes.filter (fun n => hasId id n.1)

/-- The top-level elements of a forest, in order. -/
def Dom.roots : Dom → List Element
  | .nil => []
  | .node e _ nx => e :: Dom.roots nx

/-- The integer value of a finite number (0 for `NaN` and the infinities). -/
def JSNum.toInt : JSNum → Int
  | .fin n => n
  | _ => 0

/-- Whether a number is finite. -/
def JSNum.isFinite : JSNum → Bool
  | .fin _ => true
  | _ => false

/-- The exact sum of `score * count` over the entries of a counts map. -/
def exactTotal (scores : JSObject JSValue) (entries : List (String × Nat)) : Int :=
  (entries.map (fun p => (getScoreByCID scores p.1).toInt * (p.2 : Int))).sum

/-- The entries of a counts map stay in the range where the arithmetic of the script
is exact: every score is finite, every count is at most `2 ^ 53`, and the sum of
`|score| * count` is at most `2 ^ 53`. -/
def ExactRange (scores : JSObject JSValue) (entries : List (String × Nat)) : Prop :=
  (∀ p ∈ entries, (getScoreByCID scores p.1).isFinite = true) ∧
  (∀ p ∈ entries, p.2 ≤ 2 ^ 53) ∧
  (entries.map (fun p => (getScoreByCID scores p.1).toInt.natAbs * p.2)).sum ≤ 2 ^ 53

/-- The text after an optional sign of a decimal literal. -/
def dropSign : List Char → List Char
  | [] => []
  | c :: r => if c = '-' ∨ c = '+' then r else c :: r

/-- An optional exponent part `e[+-]digits` that ends the text. -/
def isExponentPart : List Char → Bool
  | [] => true
  | c :: r => (c == 'e' || c == 'E') && !(dropSign r).isEmpty && (dropSign r).all isDigit

/-- An unsigned decimal literal of the numeric-string grammar: `Infinity`, or digits
with an optional fraction and an optional exponent. -/
def isUnsignedDecimal (s : List Char) : Bool :=
  s == "Infinity".data ||
    match s.dropWhile isDigit with
    | '.' :: r =>
      (!(s.takeWhile isDigit).isEmpty || !(r.takeWhile isDigit).isEmpty) &&
        isExponentPart (r.dropWhile isDigit)
    | r => !(s.takeWhile isDigit).isEmpty && isExponentPart r

/-- A binary, octal or hexadecimal integer literal `0b…`, `0o…`, `0x…`. -/
def isNonDecimalLiteral : List Char → Bool
  | c :: d :: r =>
    c == '0' && !r.isEmpty &&
      ((d == 'x' || d == 'X') && r.all (isRadixDigit 16) ||
       (d == 'o' || d == 'O') && r.all (isRadixDigit 8) ||
       (d == 'b' || d == 'B') && r.all (isRadixDigit 2))
  | _ => false

/-- A numeric string in the sense of the language: a string that `Number(s)` converts
to a number rather than to `NaN` (surrounding whitespace allowed, the empty string
included). -/
def isNumericString (s : String) : Bool :=
  let t := trimWs s.data
  t.isEmpty || isUnsignedDecimal (dropSign t) || isNonDecimalLiteral t

/-- Whether a string begins, after optional whitespace and an optional sign, with a
decimal digit. -/
def startsWithInteger (s : String) : Bool :=
  match (stripSign (s.data.dropWhile isJSWhitespace)).2 with
  | [] => false
  | c :: _ => isDigit c

/-- Put the character `c` in front of the first word of a list of words. -/
def consWord (c : Char) : List (List Char) → List (List Char)
  | [] => [[c]]
  | w :: ws => (c :: w) :: ws

/-- The words of a text: its maximal runs of characters that are not whitespace, in
order. -/
def wordsOf : List Char → List (List Char)
  | [] => []
  | [c] => if isJSWhitespace c then [] else [[c]]
  | c :: d :: ds =>
    if isJSWhitespace c then wordsOf (d :: ds)
    else if isJSWhitespace d then [c] :: wordsOf (d :: ds)
    else consWord c (wordsOf (d :: ds))

/-- The words joined by single spaces. -/
def joinWords : List (List Char) → List Char
  | [] => []
  | [w] => w
  | w :: ws => w ++ ' ' :: joinWords ws

/-- The link target `href` holds the identifier `cid`: it is the non-empty maximal
digit run after the first `cid=` that is followed by a digit. -/
def HrefHasCid (href cid : List Char) : Prop :=
  ∃ pre post : List Char,
    href = pre ++ ("cid=".data ++ (cid ++ post)) ∧ cid ≠ [] ∧
    (∀ c ∈ cid, isDigit c = true) ∧
    (∀ c, post.head? = some c → isDigit c = false) ∧
    (∀ (a b : List Char) (d : Char), href = a ++ ("cid=".data ++ d :: b) →
      a.length < pre.length → isDigit d = false)

/-- The text `s` begins with an annotation in the brackets `lb`, `rb`, preceded by at
most two asterisks, and `rest` is what follows its closing bracket:
`s = stars ++ lb :: body ++ rb :: rest` with no `rb` in `body`. -/
def LeadingAnnot (lb rb : Char) (s rest : List Char) : Prop :=
  ∃ stars body : List Char,
    s = stars ++ lb :: (body ++ rb :: rest) ∧
    (stars = [] ∨ stars = ['*'] ∨ stars = ['*', '*']) ∧ rb ∉ body

/-- The value returned by `cleanCardName` for a stripped text `t`: its whitespace
normalization, or the original name when that is empty. -/
def cleanedOr (cardName : String) (t : List Char) : String :=
  if (normalizeWs t).isEmpty then cardName else String.mk (normalizeWs t)

/-- The number is a double of the model: an infinity, `NaN`, or an integer that
rounding leaves unchanged. -/
def JSNum.IsDouble : JSNum → Prop
  | .fin n => JSNum.ofInt n = .fin n
  | _ => True

/-- An anchor with the given link target. -/
def cardLink (href : String) : Element :=
  { tag := "a", id := "", classList := [], href := some href, innerHTML := "" }

/-- A deck page for the examples.  `#main.card_set` holds three links to card 18050 and
one to card 4007; `#extra` lacks the class `card_set` and is no section; `#side.card_set`
holds a link to card 4007, a link without digits after `cid=`, and a link whose first
`cid=` has no digits and whose second gives 12. -/
def exampleDeck : Dom :=
  .node { tag := "div", id := "main", classList := ["card_set"], href := none,
          innerHTML := "" }
    (.node (cardLink "card_search.action?ope=2&cid=18050") .nil
      (.node (cardLink "card_search.action?ope=2&cid=18050") .nil
        (.node (cardLink "card_search.action?ope=2&cid=4007") .nil
          (.node (cardLink "card_search.action?ope=2&cid=18050") .nil .nil))))
    (.node { tag := "div", id := "extra", classList := ["t_body"], href := none,
             innerHTML := "" }
      (.node (cardLink "card_search.action?ope=2&cid=18050") .nil .nil)
      (.node { tag := "div", id := "side", classList := ["card_set"], href := none,
               innerHTML := "" }
        (.node (cardLink "card_search.action?ope=2&cid=4007") .nil
          (.node (cardLink "card_search.action?cid=") .nil
            (.node (cardLink "x?cid=&cid=12ab") .nil .nil))) .nil))

/-- A deck page with one link to each of the cards 1, 2 and 3 in `#main.card_set`. -/
def threeCardDeck : Dom :=
  .node { tag := "div", id := "main", classList := ["card_set"], href := none,
          innerHTML := "" }
    (.node (cardLink "card_search.action?cid=1") .nil
      (.node (cardLink "card_search.action?cid=2") .nil
        (.node (cardLink "card_search.action?cid=3") .nil .nil))) .nil

/-- A calculator as the constructor leaves it, with the given score table. -/
def newCalculator (scores : JSObject JSValue) : DeckScoreCalculator :=
  { scores := scores, cardCounts := [], cidToNameMap := [], nameToCidMap := [],
    totalScore := .fin 0 }

/-- A browser for the examples: its parser is given on the markup strings that occur
in them (the elements a browser creates from these strings) and creates nothing for
any other string. -/
def exampleBrowser : Browser where
  parseHTML := fun s =>
    if s = "<h4>Details:</h4>" then
      .node { tag := "h4", id := "", classList := [], href := none,
              innerHTML := "Details:" } .nil .nil
    else if s = "<li>There`re no scored cards.</li>" then
      .node { tag := "li", id := "", classList := [], href := none,
              innerHTML := "There`re no scored cards." } .nil .nil
    else if s = "\n      <h3>Total Genesys Score: 5</h3>\n" ++
        "      <div class=\"score-status within-limit\">\n" ++
        "        ✅ Within 100 Points\n      </div>\n    " then
      .node { tag := "h3", id := "", classList := [], href := none,
              innerHTML := "Total Genesys Score: 5" } .nil
        (.node { tag := "div", id := "", classList := ["score-status", "within-limit"],
                 href := none,
                 innerHTML := "\n        ✅ Within 100 Points\n      " } .nil .nil)
    else if s = "\n          <span class=\"card-name\">" ++
        "<b id=\"deck-score-result\">X</b></span>\n" ++
        "          <span class=\"card-info\">\n" ++
        "            Score 5 × 1 = 5\n" ++
        "          </span>\n        " then
      .node { tag := "span", id := "", classList := ["card-name"], href := none,
              innerHTML := "<b id=\"deck-score-result\">X</b>" }
        (.node { tag := "b", id := "deck-score-result", classList := [], href := none,
                 innerHTML := "X" } .nil .nil)
        (.node { tag := "span", id := "", classList := ["card-info"], href := none,
                 innerHTML := "\n            Score 5 × 1 = 5\n          " } .nil .nil)
    else .nil

/-! ## Auxiliary lemmas: numbers -/

theorem roundNat_of_le (m : Nat) (h : m ≤ 2 ^ 53) : roundNat m = some m := by
  unfold roundNat
  rw [if_pos h]

theorem ofInt_of_natAbs_le (n : Int) (h : n.natAbs ≤ 2 ^ 53) : JSNum.ofInt n = .fin n := by
  cases n with
  | ofNat m =>
    have hm : m ≤ 2 ^ 53 := by simpa using h
    simp [JSNum.ofInt, roundNat_of_le m hm]
  | negSucc m =>
    have hm : m + 1 ≤ 2 ^ 53 := by simpa [Int.natAbs] using h
    simp only [JSNum.ofInt, roundNat_of_le (m + 1) hm]
    rfl

theorem ofNat_of_le (n : Nat) (h : n ≤ 2 ^ 53) : JSNum.ofNat n = .fin n := by
  unfold JSNum.ofNat
  exact ofInt_of_natAbs_le n (by simpa using h)

theorem bitLengthAux_pos (fuel n : Nat) (hn : 0 < n) (hf : n ≤ fuel) :
    0 < bitLengthAux fuel n ∧ 2 ^ (bitLengthAux fuel n - 1) ≤ n := by
  induction fuel generalizing n with
  | zero => omega
  | succ fuel ih =>
    have hn0 : n ≠ 0 := by omega
    simp only [bitLengthAux, hn0, if_false]
    refine ⟨by omega, ?_⟩
    simp only [Nat.add_sub_cancel]
    by_cases h2 : n / 2 = 0
    · have : bitLengthAux fuel (n / 2) = 0 := by
        rw [h2]
        cases fuel <;> simp [bitLengthAux]
      rw [this]
      simpa using hn
    · have hpos : 0 < n / 2 := Nat.pos_of_ne_zero h2
      have hle : n / 2 ≤ fuel := by omega
      obtain ⟨hb, hp⟩ := ih (n / 2) hpos hle
      have : bitLengthAux fuel (n / 2) = (bitLengthAux fuel (n / 2) - 1) + 1 := by omega
      rw [this, pow_succ]
      omega

theorem roundNat_pos (m r : Nat) (hm : 0 < m) (h : roundNat m = some r) : 0 < r := by
  unfold roundNat at h
  by_cases hle : m ≤ 2 ^ 53
  · rw [if_pos hle] at h
    simp only [Option.some.injEq] at h
    omega
  · rw [if_neg hle] at h
    simp only at h
    obtain ⟨hb, hp⟩ := bitLengthAux_pos m m hm (le_refl m)
    have hpow : 2 ^ (bitLength m - 53) ≤ m := by
      refine le_trans (Nat.pow_le_pow_right (by decide) ?_) hp
      unfold bitLength
      omega
    have hq : 0 < m / 2 ^ (bitLength m - 53) :=
      Nat.div_pos hpow (Nat.pos_pow_of_pos _ (by decide))
    split_ifs at h with h1 h2 h3
    · simp only [Option.some.injEq] at h
      rw [← h]
      exact Nat.mul_pos (by omega) (Nat.pos_pow_of_pos _ (by decide))
    · simp only [Option.some.injEq] at h
      rw [← h]
      exact Nat.mul_pos hq (Nat.pos_pow_of_pos _ (by decide))

theorem bitLengthAux_lt (fuel n : Nat) (hf : n ≤ fuel) : n < 2 ^ bitLengthAux fuel n := by
  induction fuel generalizing n with
  | zero =>
    have : n = 0 := by omega
    subst this
    simp [bitLengthAux]
  | succ fuel ih =>
    by_cases hn : n = 0
    · subst hn
      simp [bitLengthAux]
    · simp only [bitLengthAux, hn, if_false]
      have hle : n / 2 ≤ fuel := by omega
      have := ih (n / 2) hle
      rw [pow_succ]
      omega

theorem bitLength_bounds (n : Nat) (hn : 0 < n) :
    0 < bitLength n ∧ 2 ^ (bitLength n - 1) ≤ n ∧ n < 2 ^ bitLength n :=
  ⟨(bitLengthAux_pos n n hn (le_refl n)).1, (bitLengthAux_pos n n hn (le_refl n)).2,
    bitLengthAux_lt n n (le_refl n)⟩

theorem bitLength_eq (n k : Nat) (hk : 0 < k) (hlo : 2 ^ (k - 1) ≤ n) (hhi : n < 2 ^ k) :
    bitLength n = k := by
  have hn : 0 < n := lt_of_lt_of_le (Nat.pos_pow_of_pos _ (by decide)) hlo
  obtain ⟨hb, hp, hu⟩ := bitLength_bounds n hn
  have h1 : bitLength n - 1 < k := by
    by_contra hcon
    have : 2 ^ k ≤ 2 ^ (bitLength n - 1) := Nat.pow_le_pow_right (by decide) (by omega)
    omega
  have h2 : k - 1 < bitLength n := by
    by_contra hcon
    have : 2 ^ bitLength n ≤ 2 ^ (k - 1) := Nat.pow_le_pow_right (by decide) (by omega)
    omega
  omega

theorem bitLength_mul_pow (q e : Nat) (hq : 0 < q) :
    bitLength (q * 2 ^ e) = bitLength q + e := by
  obtain ⟨hb, hp, hu⟩ := bitLength_bounds q hq
  apply bitLength_eq _ _ (by omega)
  · have : bitLength q + e - 1 = (bitLength q - 1) + e := by omega
    rw [this, pow_add]
    exact Nat.mul_le_mul_right _ hp
  · rw [pow_add]
    exact Nat.mul_lt_mul_of_pos_right hu (Nat.pos_pow_of_pos _ (by decide))

theorem bitLength_gt_53 (x : Nat) (hx : 2 ^ 53 < x) : 53 < bitLength x := by
  obtain ⟨hb, hp, hu⟩ := bitLength_bounds x (by omega)
  by_contra hcon
  have : 2 ^ bitLength x ≤ 2 ^ 53 := Nat.pow_le_pow_right (by decide) (by omega)
  omega

/-- A number above `2 ^ 53` whose bits below the 53-bit significand are zero is a
double. -/
theorem roundNat_fixed (x : Nat) (hx : 2 ^ 53 < x) (hdvd : 2 ^ (bitLength x - 53) ∣ x)
    (hov : bitLength x ≤ 1024) : roundNat x = some x := by
  obtain ⟨hb, hp, hu⟩ := bitLength_bounds x (by omega)
  have hL := bitLength_gt_53 x hx
  obtain ⟨q, hq⟩ := hdvd
  have hpos : 0 < 2 ^ (bitLength x - 53) := Nat.pos_pow_of_pos _ (by decide)
  have hdiv : x / 2 ^ (bitLength x - 53) = q :=
    Nat.div_eq_of_eq_mul_right hpos hq
  have hmod : x % 2 ^ (bitLength x - 53) = 0 :=
    Nat.mod_eq_zero_of_dvd ⟨q, hq⟩
  have hsplitL : (2 : Nat) ^ bitLength x = 2 ^ 53 * 2 ^ (bitLength x - 53) := by
    rw [← pow_add]
    congr 1
    omega
  have hsplitL1 : (2 : Nat) ^ (bitLength x - 1) = 2 ^ 52 * 2 ^ (bitLength x - 53) := by
    rw [← pow_add]
    congr 1
    omega
  have hq_hi : q < 2 ^ 53 := by
    have : 2 ^ (bitLength x - 53) * q < 2 ^ (bitLength x - 53) * 2 ^ 53 := by
      rw [← hq, mul_comm (2 ^ (bitLength x - 53)) (2 ^ 53), ← hsplitL]
      exact hu
    exact Nat.lt_of_mul_lt_mul_left this
  have hq_lo : 2 ^ 52 ≤ q := by
    have : 2 ^ (bitLength x - 53) * 2 ^ 52 ≤ 2 ^ (bitLength x - 53) * q := by
      rw [← hq, mul_comm (2 ^ (bitLength x - 53)) (2 ^ 52), ← hsplitL1]
      exact hp
    exact Nat.le_of_mul_le_mul_left this hpos
  have hblq : bitLength q = 53 := bitLength_eq q 53 (by decide) hq_lo hq_hi
  unfold roundNat
  rw [if_neg (by omega)]
  simp only [hdiv, hmod]
  have hc : ¬ (2 * 0 > 2 ^ (bitLength x - 53) ∨
      (2 * 0 = 2 ^ (bitLength x - 53) ∧ q % 2 = 1)) := by
    rintro (h | ⟨h, _⟩) <;> omega
  rw [if_neg hc, hblq, if_neg (by omega)]
  congr 1
  rw [mul_comm]
  exact hq.symm

/-- Every double is rounded to itself. -/
theorem roundNat_idem (m r : Nat) (h : roundNat m = some r) : roundNat r = some r := by
  by_cases hr : r ≤ 2 ^ 53
  · exact roundNat_of_le r hr
  · have hr' : 2 ^ 53 < r := by omega
    have hm : ¬ m ≤ 2 ^ 53 := by
      intro hle
      rw [roundNat_of_le m hle] at h
      simp only [Option.some.injEq] at h
      omega
    obtain ⟨hb, hp, hu⟩ := bitLength_bounds m (by omega)
    have hL := bitLength_gt_53 m (by omega)
    unfold roundNat at h
    rw [if_neg hm] at h
    simp only at h
    generalize hq1 : (if 2 * (m % 2 ^ (bitLength m - 53)) > 2 ^ (bitLength m - 53) ∨
        (2 * (m % 2 ^ (bitLength m - 53)) = 2 ^ (bitLength m - 53) ∧
          m / 2 ^ (bitLength m - 53) % 2 = 1)
        then m / 2 ^ (bitLength m - 53) + 1 else m / 2 ^ (bitLength m - 53)) = q1 at h
    have hpos : 0 < 2 ^ (bitLength m - 53) := Nat.pos_pow_of_pos _ (by decide)
    have hsplitL : (2 : Nat) ^ bitLength m = 2 ^ 53 * 2 ^ (bitLength m - 53) := by
      rw [← pow_add]
      congr 1
      omega
    have hqlt : m / 2 ^ (bitLength m - 53) < 2 ^ 53 := by
      rw [Nat.div_lt_iff_lt_mul hpos, ← hsplitL]
      exact hu
    have hq1le : q1 ≤ 2 ^ 53 := by
      rw [← hq1]
      split_ifs <;> omega
    split_ifs at h with hov
    simp only [Option.some.injEq] at h
    have hq1pos : 0 < q1 := by
      by_contra h0
      have : q1 = 0 := by omega
      rw [this] at h
      simp at h
      omega
    have hblr : bitLength r = bitLength q1 + (bitLength m - 53) := by
      rw [← h]
      exact bitLength_mul_pow q1 _ hq1pos
    apply roundNat_fixed r hr'
    · rw [hblr]
      by_cases h53 : q1 = 2 ^ 53
      · have hbl54 : bitLength q1 = 54 := by
          rw [h53]
          exact bitLength_eq _ 54 (by decide) (by norm_num) (by norm_num)
        rw [hbl54, ← h, h53]
        have : 54 + (bitLength m - 53) - 53 = (bitLength m - 53) + 1 := by omega
        rw [this, ← pow_add]
        exact pow_dvd_pow 2 (by omega)
      · have hlt : q1 < 2 ^ 53 := by omega
        have hbl : bitLength q1 ≤ 53 := by
          obtain ⟨_, hp1, _⟩ := bitLength_bounds q1 hq1pos
          by_contra hcon
          have : 2 ^ 53 ≤ 2 ^ (bitLength q1 - 1) :=
            Nat.pow_le_pow_right (by decide) (by omega)
          omega
        rw [← h]
        exact Dvd.dvd.mul_left (pow_dvd_pow 2 (by omega)) q1
    · rw [hblr]
      omega

theorem ofInt_idem_fin (n k : Int) (h : JSNum.ofInt n = .fin k) : JSNum.ofInt k = .fin k := by
  cases n with
  | ofNat m =>
    simp only [JSNum.ofInt] at h
    cases hr : roundNat m with
    | none => rw [hr] at h; cases h
    | some r =>
      rw [hr] at h
      simp only [JSNum.fin.injEq] at h
      subst h
      show JSNum.ofInt (Int.ofNat r) = _
      simp only [JSNum.ofInt, roundNat_idem m r hr]
  | negSucc m =>
    simp only [JSNum.ofInt] at h
    cases hr : roundNat (m + 1) with
    | none => rw [hr] at h; cases h
    | some r =>
      rw [hr] at h
      simp only [JSNum.fin.injEq] at h
      subst h
      have hrpos := roundNat_pos (m + 1) r (by omega) hr
      obtain ⟨r', rfl⟩ : ∃ r', r = r' + 1 := ⟨r - 1, by omega⟩
      have : (-((r' + 1 : Nat) : Int)) = Int.negSucc r' := by
        simp [Int.negSucc_eq]
      rw [this]
      simp only [JSNum.ofInt, roundNat_idem (m + 1) (r' + 1) hr]
      rw [this]

theorem ofInt_isDouble (n : Int) : (JSNum.ofInt n).IsDouble := by
  cases h : JSNum.ofInt n with
  | fin k => exact ofInt_idem_fin n k h
  | nan => trivial
  | posInf => trivial
  | negInf => trivial

theorem add_isDouble (x y : JSNum) : (JSNum.add x y).IsDouble := by
  cases x <;> cases y <;> first | trivial | exact ofInt_isDouble _

theorem add_fin_zero (x : JSNum) (h : x.IsDouble) : JSNum.add x (.fin 0) = x := by
  cases x with
  | nan => rfl
  | posInf => rfl
  | negInf => rfl
  | fin a =>
    show JSNum.ofInt (a + 0) = .fin a
    rw [add_zero]
    exact h

theorem ofNat_cases (c : Nat) : JSNum.ofNat c = .posInf ∨ ∃ r : Nat, JSNum.ofNat c = .fin r := by
  unfold JSNum.ofNat
  show JSNum.ofInt (Int.ofNat c) = _ ∨ _
  simp only [JSNum.ofInt]
  cases roundNat c with
  | none => exact Or.inl rfl
  | some r => exact Or.inr ⟨r, rfl⟩

theorem mul_zero_ofNat (c : Nat) (h : (JSNum.ofNat c).isFinite = true) :
    JSNum.mul (.fin 0) (JSNum.ofNat c) = .fin 0 := by
  rcases ofNat_cases c with hc | ⟨r, hc⟩
  · rw [hc] at h
    cases h
  · rw [hc]
    show JSNum.ofInt (0 * (r : Int)) = .fin 0
    rw [zero_mul]
    exact ofInt_of_natAbs_le 0 (by decide)

theorem scoreLoop_fold_isDouble (scores : JSObject JSValue) (entries : List (String × Nat))
    (init : JSNum) (h : init.IsDouble) :
    (entries.foldl
      (fun total p =>
        JSNum.add total (JSNum.mul (getScoreByCID scores p.1) (JSNum.ofNat p.2))) init).IsDouble := by
  induction entries generalizing init with
  | nil => exact h
  | cons p rest ih =>
    simp only [List.foldl_cons]
    exact ih _ (add_isDouble _ _)

theorem eq_fin_toInt_of_isFinite (x : JSNum) (h : x.isFinite = true) : x = .fin x.toInt := by
  cases x <;> simp [JSNum.isFinite, JSNum.toInt] at h ⊢

theorem add_fin_exact (a b : Int) (h : (a + b).natAbs ≤ 2 ^ 53) :
    JSNum.add (.fin a) (.fin b) = .fin (a + b) := by
  simp only [JSNum.add]
  exact ofInt_of_natAbs_le _ h

theorem mul_fin_ofNat_exact (s : Int) (c : Nat) (hc : c ≤ 2 ^ 53)
    (h : s.natAbs * c ≤ 2 ^ 53) :
    JSNum.mul (.fin s) (JSNum.ofNat c) = .fin (s * (c : Int)) := by
  rw [ofNat_of_le c hc]
  simp only [JSNum.mul]
  apply ofInt_of_natAbs_le
  rw [Int.natAbs_mul]
  simpa using h

theorem ofInt_gt_zero (n : Int) : (JSNum.ofInt n).gt (.fin 0) = decide (n > 0) := by
  cases n with
  | ofNat m =>
    simp only [JSNum.ofInt]
    cases hr : roundNat m with
    | none =>
      have hm : 0 < m := by
        by_contra h0
        have : m = 0 := by omega
        subst this
        rw [roundNat_of_le 0 (by decide)] at hr
        cases hr
      simp only [JSNum.gt]
      simp
      omega
    | some r =>
      simp only [JSNum.gt]
      by_cases hm : 0 < m
      · have := roundNat_pos m r hm hr
        simp
        omega
      · have hm0 : m = 0 := by omega
        subst hm0
        rw [roundNat_of_le 0 (by decide)] at hr
        simp only [Option.some.injEq] at hr
        subst hr
        simp
  | negSucc m =>
    simp only [JSNum.ofInt]
    cases hr : roundNat (m + 1) with
    | none => simp [JSNum.gt, Int.negSucc_lt_zero]
    | some r =>
      simp only [JSNum.gt]
      have h1 : ¬ (-(r : Int) > 0) := by omega
      have h2 : ¬ (Int.negSucc m > 0) := by
        have := Int.negSucc_lt_zero m
        omega
      simp [h1, h2]

theorem sub_gt_zero (x y : JSNum) (hx : x ≠ .nan) (hy : y ≠ .nan) :
    (JSNum.sub y x).gt (.fin 0) = y.gt x := by
  cases x with
  | nan => exact absurd rfl hx
  | posInf => cases y <;> simp [JSNum.sub, JSNum.neg, JSNum.add, JSNum.gt] at hy ⊢
  | negInf => cases y <;> simp [JSNum.sub, JSNum.neg, JSNum.add, JSNum.gt] at hy ⊢
  | fin a =>
    cases y with
    | nan => exact absurd rfl hy
    | posInf => simp [JSNum.sub, JSNum.neg, JSNum.add, JSNum.gt]
    | negInf => simp [JSNum.sub, JSNum.neg, JSNum.add, JSNum.gt]
    | fin b =>
      show (JSNum.ofInt (b + -a)).gt (.fin 0) = (JSNum.fin b).gt (.fin a)
      rw [ofInt_gt_zero]
      simp only [JSNum.gt]
      by_cases h : b > a
      · have : b + -a > 0 := by omega
        simp [h, this]
      · have : ¬ (b + -a > 0) := by omega
        simp [h, this]

theorem sub_self_not_gt (x : JSNum) : (JSNum.sub x x).gt (.fin 0) = false := by
  cases x with
  | nan => rfl
  | posInf => rfl
  | negInf => rfl
  | fin a =>
    show (JSNum.ofInt (a + -a)).gt (.fin 0) = false
    rw [ofInt_gt_zero]
    simp

theorem gt_false_trans (x y z : JSNum) (hx : x ≠ .nan) (hy : y ≠ .nan) (hz : z ≠ .nan)
    (h1 : y.gt x = false) (h2 : z.gt y = false) : z.gt x = false := by
  cases x <;> cases y <;> cases z <;> simp [JSNum.gt] at *
  all_goals omega

theorem gt_total (x y : JSNum) (h : y.gt x = true) : x.gt y = false := by
  cases x <;> cases y <;> simp [JSNum.gt] at *
  all_goals omega

theorem orderedInsert_pairwise_of {α : Type} (r : α → α → Prop) [DecidableRel r]
    (s : α → α → Prop) (P : α → Prop)
    (h1 : ∀ a b, P a → P b → r a b → s a b)
    (h2 : ∀ a b, P a → P b → ¬ r a b → s b a)
    (htrans : ∀ a b c, P a → P b → P c → s a b → s b c → s a c)
    (a : α) (ha : P a) (l : List α) (hl : ∀ b ∈ l, P b) (hs : l.Pairwise s) :
    (l.orderedInsert r a).Pairwise s := by
  induction l with
  | nil => simp
  | cons b l ih =>
    have hb : P b := hl b (List.mem_cons_self _ _)
    have hl' : ∀ c ∈ l, P c := fun c hc => hl c (List.mem_cons_of_mem _ hc)
    obtain ⟨hbl, hsl⟩ := List.pairwise_cons.mp hs
    by_cases hab : r a b
    · rw [List.orderedInsert, if_pos hab]
      refine List.pairwise_cons.mpr ⟨?_, hs⟩
      intro c hc
      rcases List.mem_cons.mp hc with rfl | hc
      · exact h1 a c ha hb hab
      · exact htrans a b c ha hb (hl' c hc) (h1 a b ha hb hab) (hbl c hc)
    · rw [List.orderedInsert, if_neg hab]
      refine List.pairwise_cons.mpr ⟨?_, ih hl' hsl⟩
      intro c hc
      rcases (List.mem_orderedInsert r).mp hc with rfl | hc
      · exact h2 c b ha hb hab
      · exact hbl c hc

theorem insertionSort_pairwise_of {α : Type} (r : α → α → Prop) [DecidableRel r]
    (s : α → α → Prop) (P : α → Prop)
    (h1 : ∀ a b, P a → P b → r a b → s a b)
    (h2 : ∀ a b, P a → P b → ¬ r a b → s b a)
    (htrans : ∀ a b c, P a → P b → P c → s a b → s b c → s a c)
    (l : List α) (hl : ∀ b ∈ l, P b) : (l.insertionSort r).Pairwise s := by
  induction l with
  | nil => simp
  | cons a l ih =>
    have hl' : ∀ c ∈ l, P c := fun c hc => hl c (List.mem_cons_of_mem _ hc)
    rw [List.insertionSort]
    exact orderedInsert_pairwise_of r s P h1 h2 htrans a (hl a (List.mem_cons_self _ _)) _
      (fun b hb => hl' b ((List.mem_insertionSort r).mp hb)) (ih hl')

theorem jsSort_perm {α : Type} (cmp : α → α → JSNum) (l : List α) : (jsSort cmp l).Perm l :=
  List.perm_insertionSort _ l

/-- Sorting by a numeric key in descending order leaves no later element with a greater
key, when no key is `NaN`. -/
theorem jsSort_sorted_desc {α : Type} (key : α → JSNum) (l : List α)
    (hl : ∀ a ∈ l, key a ≠ .nan) :
    (jsSort (fun a b => JSNum.sub (key b) (key a)) l).Pairwise
      (fun a b => (key b).gt (key a) = false) := by
  apply insertionSort_pairwise_of _ _ (fun a => key a ≠ .nan) _ _ _ l hl
  · intro a b ha hb hab
    have : (JSNum.sub (key b) (key a)).gt (.fin 0) = false := hab
    rwa [sub_gt_zero _ _ ha hb] at this
  · intro a b ha hb hab
    have h : (JSNum.sub (key b) (key a)).gt (.fin 0) = true := by
      simpa using hab
    rw [sub_gt_zero _ _ ha hb] at h
    exact gt_total _ _ h
  · intro a b c ha hb hc hab hbc
    exact gt_false_trans _ _ _ ha hb hc hab hbc

/-- Sorting by a numeric key keeps the elements of one key in their order. -/
theorem jsSort_stable {α : Type} (key : α → JSNum) (l : List α) (v : JSNum) :
    (jsSort (fun a b => JSNum.sub (key b) (key a)) l).filter (fun a => decide (key a = v)) =
      l.filter (fun a => decide (key a = v)) := by
  have hpw : (l.filter (fun a => decide (key a = v))).Pairwise
      (fun a b => (JSNum.sub (key b) (key a)).gt (.fin 0) = false) := by
    rw [List.pairwise_iff_forall_sublist]
    intro a b hab
    have ha : a ∈ l.filter (fun a => decide (key a = v)) := hab.subset (by simp)
    have hb : b ∈ l.filter (fun a => decide (key a = v)) := hab.subset (by simp)
    simp only [List.mem_filter, decide_eq_true_eq] at ha hb
    rw [ha.2, hb.2]
    exact sub_self_not_gt v
  have hsub : List.Sublist (l.filter (fun a => decide (key a = v)))
      (jsSort (fun a b => JSNum.sub (key b) (key a)) l) :=
    List.sublist_insertionSort hpw (List.filter_sublist l)
  have hsub2 : List.Sublist (l.filter (fun a => decide (key a = v)))
      ((jsSort (fun a b => JSNum.sub (key b) (key a)) l).filter
        (fun a => decide (key a = v))) := by
    have := hsub.filter (fun a => decide (key a = v))
    simpa [List.filter_filter] using this
  have hlen : ((jsSort (fun a b => JSNum.sub (key b) (key a)) l).filter
      (fun a => decide (key a = v))).length =
      (l.filter (fun a => decide (key a = v))).length :=
    ((jsSort_perm _ l).filter _).length_eq
  exact (hsub2.eq_of_length hlen.symm).symm

/-! ## Auxiliary lemmas: totals -/

theorem scoreLoop_fold_exact (scores : JSObject JSValue) (entries : List (String × Nat))
    (acc : Int)
    (hfin : ∀ p ∈ entries, (getScoreByCID scores p.1).isFinite = true)
    (hcnt : ∀ p ∈ entries, p.2 ≤ 2 ^ 53)
    (hsum : acc.natAbs +
      (entries.map (fun p => (getScoreByCID scores p.1).toInt.natAbs * p.2)).sum ≤ 2 ^ 53) :
    entries.foldl
        (fun total p =>
          JSNum.add total (JSNum.mul (getScoreByCID scores p.1) (JSNum.ofNat p.2)))
        (.fin acc) =
      .fin (acc + exactTotal scores entries) := by
  induction entries generalizing acc with
  | nil => simp [exactTotal]
  | cons p rest ih =>
    have hp := hfin p (List.mem_cons_self _ _)
    have hc := hcnt p (List.mem_cons_self _ _)
    simp only [List.map_cons, List.sum_cons] at hsum
    have hprod : (getScoreByCID scores p.1).toInt.natAbs * p.2 ≤ 2 ^ 53 := by omega
    have hmul : JSNum.mul (getScoreByCID scores p.1) (JSNum.ofNat p.2) =
        .fin ((getScoreByCID scores p.1).toInt * (p.2 : Int)) := by
      conv_lhs => rw [eq_fin_toInt_of_isFinite _ hp]
      exact mul_fin_ofNat_exact _ _ hc hprod
    have habs : (acc + (getScoreByCID scores p.1).toInt * (p.2 : Int)).natAbs ≤
        acc.natAbs + (getScoreByCID scores p.1).toInt.natAbs * p.2 := by
      refine le_trans (Int.natAbs_add_le _ _) ?_
      rw [Int.natAbs_mul]
      simp
    have hadd : JSNum.add (.fin acc)
        (.fin ((getScoreByCID scores p.1).toInt * (p.2 : Int))) =
        .fin (acc + (getScoreByCID scores p.1).toInt * (p.2 : Int)) :=
      add_fin_exact _ _ (by omega)
    simp only [List.foldl_cons, hmul, hadd]
    rw [ih _ (fun q hq => hfin q (List.mem_cons_of_mem _ hq))
      (fun q hq => hcnt q (List.mem_cons_of_mem _ hq)) (by omega)]
    simp [exactTotal, add_assoc]

theorem scoreLoop_exact (scores : JSObject JSValue) (entries : List (String × Nat))
    (h : ExactRange scores entries) :
    scoreLoop scores entries = .fin (exactTotal scores entries) := by
  obtain ⟨hfin, hcnt, hsum⟩ := h
  have := scoreLoop_fold_exact scores entries 0 hfin hcnt (by simpa using hsum)
  simpa [scoreLoop] using this

theorem exactRange_perm (scores : JSObject JSValue) (l₁ l₂ : List (String × Nat))
    (hp : l₁.Perm l₂) (h : ExactRange scores l₂) : ExactRange scores l₁ := by
  obtain ⟨hfin, hcnt, hsum⟩ := h
  refine ⟨fun p hp' => hfin p (hp.mem_iff.mp hp'), fun p hp' => hcnt p (hp.mem_iff.mp hp'), ?_⟩
  rw [(hp.map _).sum_eq]
  exact hsum

theorem exactTotal_perm (scores : JSObject JSValue) (l₁ l₂ : List (String × Nat))
    (hp : l₁.Perm l₂) : exactTotal scores l₁ = exactTotal scores l₂ :=
  (hp.map _).sum_eq

theorem objectEntries_perm {α : Type} (obj : JSObject α) : (objectEntries obj).Perm obj := by
  unfold objectEntries
  refine ((List.perm_insertionSort _ _).append_right _).trans ?_
  exact List.filter_append_perm _ _

/-! ## Auxiliary lemmas: `parseInt` -/

theorem isRadixDigit_ten (c : Char) : isRadixDigit 10 c = isDigit c := by
  unfold isRadixDigit digitValue isDigit
  simp only [Bool.and_eq_true, decide_eq_true_eq]
  split_ifs with h1 h2 h3
  · simp only [decide_eq_true_eq]
    have : c.toNat - 48 < 10 := by omega
    simp [this, h1]
  · have : ¬ (c.toNat - 97 + 10 < 10) := by omega
    simp [this]; omega
  · have : ¬ (c.toNat - 65 + 10 < 10) := by omega
    simp [this]; omega
  · simp; omega

theorem digitValue_of_isDigit (c : Char) (h : isDigit c = true) :
    digitValue c = some (c.toNat - 48) := by
  unfold isDigit at h
  unfold digitValue
  simp only [Bool.and_eq_true, decide_eq_true_eq] at h
  simp [h]

theorem not_ws_of_isDigit (c : Char) (h : isDigit c = true) : isJSWhitespace c = false := by
  unfold isDigit at h
  simp only [Bool.and_eq_true, decide_eq_true_eq] at h
  unfold isJSWhitespace
  simp
  omega

theorem digitChar_spec (k : Nat) (h : k < 10) :
    isDigit (Nat.digitChar k) = true ∧ digitValue (Nat.digitChar k) = some k := by
  interval_cases k <;> decide

theorem digitsToNat_append_singleton (radix : Nat) (ds : List Char) (c : Char) :
    digitsToNat radix (ds ++ [c]) = digitsToNat radix ds * radix + (digitValue c).getD 0 := by
  simp [digitsToNat, List.foldl_append]

theorem toDigitsCore_spec : ∀ (fuel n : Nat) (ds : List Char), n < fuel →
    ∃ pre, Nat.toDigitsCore 10 fuel n ds = pre ++ ds ∧ pre ≠ [] ∧
      (∀ c ∈ pre, isDigit c = true) ∧ digitsToNat 10 pre = n := by
  intro fuel
  induction fuel with
  | zero => intro n ds h; omega
  | succ fuel ih =>
    intro n ds h
    have hd := digitChar_spec (n % 10) (Nat.mod_lt _ (by decide))
    unfold Nat.toDigitsCore
    by_cases h0 : n / 10 = 0
    · refine ⟨[Nat.digitChar (n % 10)], by simp [h0], by simp, ?_, ?_⟩
      · intro c hc
        simp only [List.mem_singleton] at hc
        rw [hc]; exact hd.1
      · simp [digitsToNat, hd.2]
        omega
    · have hlt : n / 10 < fuel := by omega
      obtain ⟨pre, hpre, hne, hall, hval⟩ := ih (n / 10) (Nat.digitChar (n % 10) :: ds) hlt
      refine ⟨pre ++ [Nat.digitChar (n % 10)], by simp [h0, hpre], by simp, ?_, ?_⟩
      · intro c hc
        rcases List.mem_append.mp hc with hc | hc
        · exact hall c hc
        · simp only [List.mem_singleton] at hc
          rw [hc]; exact hd.1
      · rw [digitsToNat_append_singleton, hval, hd.2]
        simp
        omega

theorem natToDigits_spec (n : Nat) :
    natToDigits n ≠ [] ∧ (∀ c ∈ natToDigits n, isDigit c = true) ∧
      digitsToNat 10 (natToDigits n) = n := by
  obtain ⟨pre, hpre, hne, hall, hval⟩ := toDigitsCore_spec (n + 1) n [] (Nat.lt_succ_self n)
  have : natToDigits n = pre := by
    simp [natToDigits, Nat.toDigits, hpre]
  rw [this]
  exact ⟨hne, hall, hval⟩

theorem takeWhile_digits (ds rest : List Char) (hds : ∀ c ∈ ds, isDigit c = true)
    (hrest : ∀ c, rest.head? = some c → isDigit c = false) :
    (ds ++ rest).takeWhile (isRadixDigit 10) = ds := by
  induction ds with
  | nil =>
    cases rest with
    | nil => rfl
    | cons c r =>
      have := hrest c rfl
      simp [List.takeWhile, isRadixDigit_ten, this]
  | cons d ds ih =>
    have hd := hds d (List.mem_cons_self _ _)
    have ih' := ih (fun c hc => hds c (List.mem_cons_of_mem _ hc))
    simp [List.takeWhile_cons, isRadixDigit_ten, hd, ih']

theorem stripRadixPrefix_digits (d : Char) (ds rest : List Char)
    (hds : ∀ c ∈ d :: ds, isDigit c = true)
    (hrest : ∀ c, rest.head? = some c → d :: ds = ['0'] → c ≠ 'x' ∧ c ≠ 'X') :
    stripRadixPrefix (d :: (ds ++ rest)) = (10, d :: (ds ++ rest)) := by
  cases hcs : ds ++ rest with
  | nil => simp [stripRadixPrefix]
  | cons e r =>
    have hnot : ¬ (d = '0' ∧ (e = 'x' ∨ e = 'X')) := by
      rintro ⟨rfl, he⟩
      cases ds with
      | nil =>
        simp only [List.nil_append] at hcs
        have := hrest e (by rw [hcs]; rfl) rfl
        rcases he with he | he
        · exact this.1 he
        · exact this.2 he
      | cons e' tl =>
        simp only [List.cons_append, List.cons.injEq] at hcs
        have he' := hds e' (by simp)
        rw [hcs.1] at he'
        rcases he with rfl | rfl <;> exact absurd he' (by decide)
    simp [stripRadixPrefix, hnot]

theorem dropWhile_ws_append (ws t : List Char) (hws : ∀ c ∈ ws, isJSWhitespace c = true)
    (ht : ∀ c, t.head? = some c → isJSWhitespace c = false) :
    (ws ++ t).dropWhile isJSWhitespace = t := by
  induction ws with
  | nil =>
    cases t with
    | nil => rfl
    | cons c r =>
      have := ht c rfl
      simp [List.dropWhile, this]
  | cons w ws ih =>
    have hw := hws w (List.mem_cons_self _ _)
    simp only [List.cons_append, List.dropWhile, hw]
    exact ih (fun c hc => hws c (List.mem_cons_of_mem _ hc))

/-- The value of `parseInt` on optional whitespace, an optional sign and a decimal
digit run, whatever follows the run. -/
theorem parseIntChars_signed_digits (ws sign ds rest : List Char) (neg : Bool)
    (hws : ∀ c ∈ ws, isJSWhitespace c = true)
    (hsign : (sign = [] ∧ neg = false) ∨ (sign = ['+'] ∧ neg = false) ∨
      (sign = ['-'] ∧ neg = true))
    (hne : ds ≠ []) (hds : ∀ c ∈ ds, isDigit c = true)
    (hrest : ∀ c, rest.head? = some c →
      isDigit c = false ∧ (ds = ['0'] → c ≠ 'x' ∧ c ≠ 'X')) :
    parseIntChars (ws ++ (sign ++ (ds ++ rest))) =
      JSNum.ofInt (if neg then -((digitsToNat 10 ds : Nat) : Int)
        else ((digitsToNat 10 ds : Nat) : Int)) := by
  obtain ⟨d, ds', rfl⟩ := List.exists_cons_of_ne_nil hne
  have hd := hds d (List.mem_cons_self _ _)
  have hdws := not_ws_of_isDigit d hd
  have hminus : d ≠ '-' := by rintro rfl; exact absurd hd (by decide)
  have hplus : d ≠ '+' := by rintro rfl; exact absurd hd (by decide)
  have hradix := stripRadixPrefix_digits d ds' rest hds (fun c hc => (hrest c hc).2)
  have htake := takeWhile_digits (d :: ds') rest hds (fun c hc => (hrest c hc).1)
  simp only [List.cons_append] at htake
  have hdrop : (ws ++ (sign ++ (d :: ds' ++ rest))).dropWhile isJSWhitespace =
      sign ++ (d :: ds' ++ rest) := by
    apply dropWhile_ws_append ws _ hws
    intro c hc
    rcases hsign with ⟨rfl, _⟩ | ⟨rfl, _⟩ | ⟨rfl, _⟩
    · simp only [List.nil_append, List.cons_append, List.head?_cons, Option.some.injEq] at hc
      rw [← hc]; exact hdws
    · simp only [List.cons_append, List.nil_append, List.head?_cons, Option.some.injEq] at hc
      rw [← hc]; decide
    · simp only [List.cons_append, List.nil_append, List.head?_cons, Option.some.injEq] at hc
      rw [← hc]; decide
  have hstrip : stripSign (sign ++ (d :: ds' ++ rest)) = (neg, d :: (ds' ++ rest)) := by
    rcases hsign with ⟨rfl, rfl⟩ | ⟨rfl, rfl⟩ | ⟨rfl, rfl⟩
    · simp [stripSign, hminus, hplus]
    · simp [stripSign]
    · simp [stripSign]
  unfold parseIntChars
  rw [hdrop, hstrip]
  simp only [hradix, htake]
  simp

theorem parseIntChars_of_not_digit (s : List Char)
    (h : ∀ c t, (stripSign (s.dropWhile isJSWhitespace)).2 = c :: t → isDigit c = false) :
    parseIntChars s = .nan := by
  cases hs : (stripSign (s.dropWhile isJSWhitespace)).2 with
  | nil => simp [parseIntChars, hs, stripRadixPrefix]
  | cons c t =>
    have hc := h c t hs
    have hc0 : c ≠ '0' := by rintro rfl; exact absurd hc (by decide)
    have hradix : stripRadixPrefix (c :: t) = (10, c :: t) := by
      cases t with
      | nil => simp [stripRadixPrefix]
      | cons e r => simp [stripRadixPrefix, hc0]
    simp [parseIntChars, hs, hradix, List.takeWhile_cons, isRadixDigit_ten, hc]

theorem digitsToNat_eq_ofDigits (ds : List Char) (hds : ∀ c ∈ ds, isDigit c = true) :
    digitsToNat 10 ds = Nat.ofDigits 10 ((ds.map (fun c => c.toNat - 48)).reverse) := by
  induction ds using List.reverseRecOn with
  | nil => simp [digitsToNat]
  | append_singleton ds c ih =>
    have hc := hds c (by simp)
    rw [digitsToNat_append_singleton, digitValue_of_isDigit c hc,
      ih (fun x hx => hds x (by simp [hx]))]
    simp [Nat.ofDigits_cons]
    ring

theorem parseInt_num (n : Int) (h : n.natAbs < 2 ^ 53) :
    parseInt (JSValue.num n) = .fin n := by
  have hof : JSNum.ofInt n = .fin n := ofInt_of_natAbs_le n (by omega)
  cases n with
  | ofNat m =>
    have hm : m < 2 ^ 53 := by simpa using h
    obtain ⟨hne, hall, hval⟩ := natToDigits_spec m
    have hp := parseIntChars_signed_digits [] [] (natToDigits m) [] false
      (by simp) (Or.inl ⟨rfl, rfl⟩) hne hall (fun c hc => by simp at hc)
    simp only [List.nil_append, List.append_nil, hval] at hp
    simp only [parseInt, JSValue.toJSString, hof, JSNum.toJSString, natNumberToString,
      if_pos hm]
    rw [hp]
    exact hof
  | negSucc m =>
    have hm : m + 1 < 2 ^ 53 := by simpa [Int.natAbs] using h
    obtain ⟨hne, hall, hval⟩ := natToDigits_spec (m + 1)
    have hp := parseIntChars_signed_digits [] ['-'] (natToDigits (m + 1)) [] true
      (by simp) (Or.inr (Or.inr ⟨rfl, rfl⟩)) hne hall (fun c hc => by simp at hc)
    simp only [List.nil_append, List.append_nil, hval] at hp
    simp only [parseInt, JSValue.toJSString, hof, JSNum.toJSString, natNumberToString,
      if_pos hm]
    have hn : -(((m + 1 : Nat)) : Int) = Int.negSucc m := by
      simp [Int.negSucc_eq]
    rw [List.singleton_append] at hp
    simp only [if_true] at hp
    rw [hp, hn]
    exact hof

/-! ## Auxiliary lemmas: display names -/

theorem string_ne_empty_of_data {s : String} (h : s.data ≠ []) : s ≠ "" := by
  intro hs
  apply h
  rw [hs]

theorem cleanCardName_eq (cardName : String) :
    cleanCardName cardName =
      if cardName.data.isEmpty || "ID:".data.isPrefixOf cardName.data then cardName
      else cleanedOr cardName
        (stripAnnot '[' ']' (stripAnnot '【' '】' cardName.data)) := by
  rfl

theorem skipToClose_eq_some_iff (rb : Char) (cs rest : List Char) :
    skipToClose rb cs = some rest ↔ ∃ body, cs = body ++ rb :: rest ∧ rb ∉ body := by
  induction cs with
  | nil => simp [skipToClose]
  | cons c cs ih =>
    unfold skipToClose
    by_cases hc : c = rb
    · subst hc
      simp only [if_true, Option.some.injEq]
      constructor
      · rintro rfl
        exact ⟨[], rfl, by simp⟩
      · rintro ⟨body, hbody, hnot⟩
        cases body with
        | nil => simpa using hbody
        | cons b body =>
          simp only [List.cons_append, List.cons.injEq] at hbody
          exact absurd hbody.1 (by
            intro h
            exact hnot (by simp [h]))
    · simp only [hc, if_false]
      rw [ih]
      constructor
      · rintro ⟨body, rfl, hnot⟩
        refine ⟨c :: body, rfl, ?_⟩
        simp only [List.mem_cons, not_or]
        exact ⟨fun h => hc h.symm, hnot⟩
      · rintro ⟨body, hbody, hnot⟩
        cases body with
        | nil =>
          simp only [List.nil_append, List.cons.injEq] at hbody
          exact absurd hbody.1 hc
        | cons b body =>
          simp only [List.cons_append, List.cons.injEq] at hbody
          refine ⟨body, hbody.2, ?_⟩
          intro h
          exact hnot (List.mem_cons_of_mem _ h)

theorem skipStars_decomp (s : List Char) :
    ∃ stars, (stars = [] ∨ stars = ['*'] ∨ stars = ['*', '*']) ∧ s = stars ++ skipStars s := by
  unfold skipStars
  cases s with
  | nil => exact ⟨[], Or.inl rfl, rfl⟩
  | cons c cs =>
    by_cases hc : c = '*'
    · subst hc
      cases cs with
      | nil => exact ⟨['*'], Or.inr (Or.inl rfl), by simp [skipStar]⟩
      | cons d ds =>
        by_cases hd : d = '*'
        · subst hd
          exact ⟨['*', '*'], Or.inr (Or.inr rfl), by simp [skipStar]⟩
        · exact ⟨['*'], Or.inr (Or.inl rfl), by simp [skipStar, hd]⟩
    · exact ⟨[], Or.inl rfl, by simp [skipStar, hc]⟩

theorem skipStars_append (lb : Char) (hlb : lb ≠ '*') (stars t : List Char)
    (hstars : stars = [] ∨ stars = ['*'] ∨ stars = ['*', '*']) :
    skipStars (stars ++ lb :: t) = lb :: t := by
  rcases hstars with rfl | rfl | rfl <;> simp [skipStars, skipStar, hlb]

theorem matchAnnot_eq_some_iff (lb rb : Char) (hlb : lb ≠ '*') (s t : List Char) :
    matchAnnot lb rb s = some t ↔
      ∃ rest, LeadingAnnot lb rb s rest ∧ t = rest.dropWhile isJSWhitespace := by
  constructor
  · intro h
    obtain ⟨stars, hstars, hs⟩ := skipStars_decomp s
    unfold matchAnnot at h
    cases hsk : skipStars s with
    | nil => simp [hsk] at h
    | cons c cs =>
      rw [hsk] at h hs
      simp only at h
      by_cases hc : c = lb
      · subst hc
        simp only [if_true] at h
        cases hclose : skipToClose rb cs with
        | none => simp [hclose] at h
        | some rest =>
          simp only [hclose, Option.some.injEq] at h
          obtain ⟨body, hbody, hnot⟩ := (skipToClose_eq_some_iff rb cs rest).mp hclose
          exact ⟨rest, ⟨stars, body, by rw [hs, hbody], hstars, hnot⟩, h.symm⟩
      · simp [hc] at h
  · rintro ⟨rest, ⟨stars, body, hs, hstars, hnot⟩, rfl⟩
    have hsk := skipStars_append lb hlb stars (body ++ rb :: rest) hstars
    have hclose := (skipToClose_eq_some_iff rb (body ++ rb :: rest) rest).mpr ⟨body, rfl, hnot⟩
    unfold matchAnnot
    rw [hs, hsk]
    simp [hclose]

theorem matchAnnot_eq_none_iff (lb rb : Char) (hlb : lb ≠ '*') (s : List Char) :
    matchAnnot lb rb s = none ↔ ¬ ∃ rest, LeadingAnnot lb rb s rest := by
  constructor
  · rintro h ⟨rest, hrest⟩
    have := (matchAnnot_eq_some_iff lb rb hlb s _).mpr ⟨rest, hrest, rfl⟩
    rw [h] at this
    cases this
  · intro h
    cases hm : matchAnnot lb rb s with
    | none => rfl
    | some t =>
      obtain ⟨rest, hrest, _⟩ := (matchAnnot_eq_some_iff lb rb hlb s t).mp hm
      exact absurd ⟨rest, hrest⟩ h

theorem stripAnnot_of_leading (lb rb : Char) (hlb : lb ≠ '*') (s rest : List Char)
    (h : LeadingAnnot lb rb s rest) :
    stripAnnot lb rb s = rest.dropWhile isJSWhitespace := by
  have := (matchAnnot_eq_some_iff lb rb hlb s _).mpr ⟨rest, h, rfl⟩
  simp [stripAnnot, this]

theorem stripAnnot_of_none (lb rb : Char) (hlb : lb ≠ '*') (s : List Char)
    (h : ¬ ∃ rest, LeadingAnnot lb rb s rest) :
    stripAnnot lb rb s = s := by
  have := (matchAnnot_eq_none_iff lb rb hlb s).mpr h
  simp [stripAnnot, this]

theorem cleanCardName_of_not_id (cardName : String)
    (hid : "ID:".data.isPrefixOf cardName.data = false) :
    cleanCardName cardName =
      cleanedOr cardName
        (stripAnnot '[' ']' (stripAnnot '【' '】' cardName.data)) := by
  rw [cleanCardName_eq]
  by_cases he : cardName.data.isEmpty = true
  · have hnil : cardName.data = [] := by simpa using he
    have hs : stripAnnot '[' ']' (stripAnnot '【' '】' cardName.data) = [] := by
      rw [hnil]; rfl
    rw [hs]
    simp [he, cleanedOr, normalizeWs, trimWs, collapseWsAux]
  · simp [he, hid]

theorem not_id_of_leading (lb rb : Char) (hlb : lb ≠ 'I') (s rest : List Char)
    (h : LeadingAnnot lb rb s rest) : "ID:".data.isPrefixOf s = false := by
  obtain ⟨stars, body, hs, hstars, _⟩ := h
  have hI : ('I' == lb) = false := by
    simp only [beq_eq_false_iff_ne, ne_eq]
    exact fun h => hlb h.symm
  subst hs
  rcases hstars with rfl | rfl | rfl
  · show List.isPrefixOf ['I', 'D', ':'] (lb :: (body ++ rb :: rest)) = false
    simp [List.isPrefixOf, hI]
  · rfl
  · rfl

theorem normalizeWs_dropWhile (s : List Char) :
    normalizeWs (s.dropWhile isJSWhitespace) = normalizeWs s := by
  unfold normalizeWs trimWs
  rw [List.dropWhile_idempotent]

theorem wordsOf_cons_ws (c : Char) (cs : List Char) (hc : isJSWhitespace c = true) :
    wordsOf (c :: cs) = wordsOf cs := by
  cases cs with
  | nil => simp [wordsOf, hc]
  | cons d ds => simp [wordsOf, hc]

theorem wordsOf_eq_nil_of_ws (u : List Char) (hu : ∀ c ∈ u, isJSWhitespace c = true) :
    wordsOf u = [] := by
  induction u with
  | nil => rfl
  | cons c cs ih =>
    rw [wordsOf_cons_ws c cs (hu c (List.mem_cons_self _ _))]
    exact ih (fun d hd => hu d (List.mem_cons_of_mem _ hd))

theorem consWord_ne_nil (c : Char) (W : List (List Char)) : consWord c W ≠ [] := by
  cases W <;> simp [consWord]

theorem wordsOf_cons_ne_nil (c : Char) (cs : List Char) (hc : isJSWhitespace c = false) :
    wordsOf (c :: cs) ≠ [] := by
  cases cs with
  | nil => simp [wordsOf, hc]
  | cons d ds =>
    by_cases hd : isJSWhitespace d = true
    · simp [wordsOf, hc, hd]
    · simp only [wordsOf, hc, hd]
      simpa using consWord_ne_nil c _

theorem ws_of_wordsOf_eq_nil (t : List Char) (h : wordsOf t = []) :
    ∀ c ∈ t, isJSWhitespace c = true := by
  induction t with
  | nil => simp
  | cons c cs ih =>
    by_cases hc : isJSWhitespace c = true
    · have hcs : wordsOf cs = [] := by
        rw [wordsOf_cons_ws c cs hc] at h
        exact h
      intro d hd
      rcases List.mem_cons.mp hd with rfl | hd
      · exact hc
      · exact ih hcs d hd
    · exact absurd h (wordsOf_cons_ne_nil c cs (by simpa using hc))

theorem wordsOf_dropWhile (s : List Char) :
    wordsOf (s.dropWhile isJSWhitespace) = wordsOf s := by
  induction s with
  | nil => rfl
  | cons c cs ih =>
    by_cases hc : isJSWhitespace c = true
    · simp only [List.dropWhile, hc]
      rw [wordsOf_cons_ws c cs hc]
      exact ih
    · simp only [List.dropWhile, hc]

theorem wordsOf_append_ws (t u : List Char) (hu : ∀ c ∈ u, isJSWhitespace c = true) :
    wordsOf (t ++ u) = wordsOf t := by
  induction t with
  | nil => simpa [wordsOf] using wordsOf_eq_nil_of_ws u hu
  | cons c cs ih =>
    by_cases hc : isJSWhitespace c = true
    · rw [List.cons_append, wordsOf_cons_ws c _ hc, wordsOf_cons_ws c _ hc]
      exact ih
    · cases cs with
      | nil =>
        cases u with
        | nil => rfl
        | cons d u' =>
          have hd := hu d (List.mem_cons_self _ _)
          have hnil := wordsOf_eq_nil_of_ws (d :: u') hu
          simp only [List.cons_append, List.nil_append, wordsOf, hc, hd, if_true, hnil]
      | cons d ds =>
        simp only [List.cons_append] at ih ⊢
        simp only [wordsOf, hc]
        rw [ih]

theorem joinWords_consWord (c : Char) (W : List (List Char)) (hW : W ≠ []) :
    joinWords (consWord c W) = c :: joinWords W := by
  cases W with
  | nil => exact absurd rfl hW
  | cons w r => cases r <;> simp [consWord, joinWords]

theorem joinWords_singleton_cons (c : Char) (W : List (List Char)) (hW : W ≠ []) :
    joinWords ([c] :: W) = c :: ' ' :: joinWords W := by
  cases W with
  | nil => exact absurd rfl hW
  | cons w r => simp [joinWords]

/-- The output of the collapsing pass on a text without trailing whitespace. -/
theorem collapseWsAux_words (t : List Char)
    (hP : ∀ c, t.getLast? = some c → isJSWhitespace c = false) :
    collapseWsAux true t = joinWords (wordsOf t) ∧
    (∀ c cs, t = c :: cs → collapseWsAux false t =
      (if isJSWhitespace c then [' '] else []) ++ joinWords (wordsOf t)) := by
  induction t with
  | nil => simp [collapseWsAux, wordsOf, joinWords]
  | cons c cs ih =>
    have hPcs : ∀ x, cs.getLast? = some x → isJSWhitespace x = false := by
      intro x hx
      cases cs with
      | nil => simp at hx
      | cons d ds =>
        apply hP x
        rw [List.getLast?_cons_cons]
        exact hx
    obtain ⟨ih1, ih2⟩ := ih hPcs
    by_cases hc : isJSWhitespace c = true
    · rw [wordsOf_cons_ws c cs hc]
      simp only [collapseWsAux, hc, if_true]
      refine ⟨ih1, ?_⟩
      intro c' cs' h
      cases h
      simp [ih1, hc]
    · have hc' : isJSWhitespace c = false := by simpa using hc
      have key : c :: collapseWsAux false cs = joinWords (wordsOf (c :: cs)) := by
        cases cs with
        | nil => simp [collapseWsAux, wordsOf, hc', joinWords]
        | cons d ds =>
          rw [ih2 d ds rfl]
          by_cases hd : isJSWhitespace d = true
          · have hW : wordsOf (d :: ds) ≠ [] := by
              intro hnil
              have hall := ws_of_wordsOf_eq_nil (d :: ds) hnil
              obtain ⟨x, hx⟩ : ∃ x, (d :: ds).getLast? = some x := by
                cases h : (d :: ds).getLast? with
                | none => simp at h
                | some x => exact ⟨x, rfl⟩
              have hxmem : x ∈ d :: ds := List.mem_of_getLast?_eq_some hx
              have := hPcs x hx
              rw [hall x hxmem] at this
              cases this
            have hw : wordsOf (c :: d :: ds) = [c] :: wordsOf (d :: ds) := by
              simp [wordsOf, hc', hd]
            rw [hw, joinWords_singleton_cons c _ hW]
            simp [hd]
          · have hd' : isJSWhitespace d = false := by simpa using hd
            have hne := wordsOf_cons_ne_nil d ds hd'
            have hw : wordsOf (c :: d :: ds) = consWord c (wordsOf (d :: ds)) := by
              simp [wordsOf, hc', hd']
            rw [hw, joinWords_consWord c _ hne]
            simp [hd']
      simp only [collapseWsAux, hc', Bool.false_eq_true, if_false]
      refine ⟨key, ?_⟩
      intro c' cs' h
      cases h
      simpa [hc'] using key

theorem trimWs_decomp (s : List Char) :
    ∃ u, s.dropWhile isJSWhitespace = trimWs s ++ u ∧
      (∀ c ∈ u, isJSWhitespace c = true) ∧
      (∀ c, (trimWs s).getLast? = some c → isJSWhitespace c = false) := by
  refine ⟨((s.dropWhile isJSWhitespace).reverse.takeWhile isJSWhitespace).reverse, ?_, ?_, ?_⟩
  · unfold trimWs
    rw [← List.reverse_append, List.takeWhile_append_dropWhile, List.reverse_reverse]
  · intro c hc
    rw [List.mem_reverse] at hc
    exact (List.mem_takeWhile_imp hc)
  · intro c hc
    unfold trimWs at hc
    rw [List.getLast?_reverse] at hc
    have := List.head?_dropWhile_not isJSWhitespace (s.dropWhile isJSWhitespace).reverse
    rw [hc] at this
    simpa using this

theorem trimWs_head (s : List Char) (c : Char) (t : List Char) (h : trimWs s = c :: t) :
    isJSWhitespace c = false := by
  obtain ⟨u, hu, _, _⟩ := trimWs_decomp s
  rw [h] at hu
  have := List.head?_dropWhile_not isJSWhitespace s
  rw [hu] at this
  simpa using this

/-- Whitespace normalization yields the words of the text joined by single spaces. -/
theorem normalizeWs_eq_joinWords (s : List Char) :
    normalizeWs s = joinWords (wordsOf s) := by
  obtain ⟨u, hu, huws, hlast⟩ := trimWs_decomp s
  have hw : wordsOf (trimWs s) = wordsOf s := by
    rw [← wordsOf_dropWhile s, hu, wordsOf_append_ws _ _ huws]
  unfold normalizeWs
  cases ht : trimWs s with
  | nil =>
    rw [← hw, ht]
    rfl
  | cons c t =>
    rw [← ht, (collapseWsAux_words (trimWs s) hlast).2 c t ht, hw]
    simp [trimWs_head s c t ht]

/-! ## Auxiliary lemmas: identifiers in link targets -/

theorem takeWhile_digits_eq (ds post : List Char) (hds : ∀ c ∈ ds, isDigit c = true)
    (hpost : ∀ c, post.head? = some c → isDigit c = false) :
    (ds ++ post).takeWhile isDigit = ds := by
  induction ds with
  | nil =>
    cases post with
    | nil => rfl
    | cons c r => simp [List.takeWhile, hpost c rfl]
  | cons d ds ih =>
    have hd := hds d (List.mem_cons_self _ _)
    have ih' := ih (fun c hc => hds c (List.mem_cons_of_mem _ hc))
    simp [List.takeWhile_cons, hd, ih']

theorem cidPrefix_iff (s : List Char) :
    "cid=".data.isPrefixOf s = true ↔ ∃ t, s = "cid=".data ++ t := by
  rw [List.isPrefixOf_iff_prefix]
  constructor
  · rintro ⟨t, ht⟩
    exact ⟨t, ht.symm⟩
  · rintro ⟨t, ht⟩
    exact ⟨t, ht.symm⟩

/-- The pattern matches at the start of the text with group `cid`. -/
theorem cid_here_iff (s cid : List Char) :
    ("cid=".data.isPrefixOf s = true ∧ ¬ ((s.drop 4).takeWhile isDigit).isEmpty = true ∧
      (s.drop 4).takeWhile isDigit = cid) ↔
    ∃ post, s = "cid=".data ++ (cid ++ post) ∧ cid ≠ [] ∧ (∀ c ∈ cid, isDigit c = true) ∧
      (∀ c, post.head? = some c → isDigit c = false) := by
  constructor
  · rintro ⟨hpre, hne, rfl⟩
    obtain ⟨t, rfl⟩ := (cidPrefix_iff s).mp hpre
    have hdrop : ("cid=".data ++ t).drop 4 = t := rfl
    rw [hdrop] at hne ⊢
    refine ⟨t.dropWhile isDigit, ?_, ?_, ?_, ?_⟩
    · rw [List.takeWhile_append_dropWhile]
    · simpa using hne
    · intro c hc
      exact List.mem_takeWhile_imp hc
    · intro c hc
      have := List.head?_dropWhile_not isDigit t
      rw [hc] at this
      simpa using this
  · rintro ⟨post, rfl, hne, hds, hpost⟩
    have hdrop : ("cid=".data ++ (cid ++ post)).drop 4 = cid ++ post := rfl
    rw [hdrop, takeWhile_digits_eq cid post hds hpost]
    refine ⟨(cidPrefix_iff _).mpr ⟨_, rfl⟩, ?_, rfl⟩
    simpa using hne

/-- The pattern does not match at the start of the text. -/
theorem cid_not_here_iff (s : List Char) :
    ¬ ("cid=".data.isPrefixOf s = true ∧ ¬ ((s.drop 4).takeWhile isDigit).isEmpty = true) ↔
    ∀ (d : Char) (b : List Char), s = "cid=".data ++ d :: b → isDigit d = false := by
  constructor
  · intro h d b hs
    by_contra hd
    have hd' : isDigit d = true := by simpa using hd
    apply h
    refine ⟨(cidPrefix_iff s).mpr ⟨_, hs⟩, ?_⟩
    have hdrop : s.drop 4 = d :: b := by rw [hs]; rfl
    rw [hdrop]
    simp [List.takeWhile_cons, hd']
  · rintro h ⟨hpre, hne⟩
    obtain ⟨t, rfl⟩ := (cidPrefix_iff s).mp hpre
    have hdrop : ("cid=".data ++ t).drop 4 = t := rfl
    rw [hdrop] at hne
    cases t with
    | nil => simp at hne
    | cons d b =>
      have hd := h d b rfl
      simp [List.takeWhile_cons, hd] at hne

theorem cidMatch_iff (href cid : List Char) :
    cidMatch href = some cid ↔ HrefHasCid href cid := by
  induction href with
  | nil =>
    simp only [cidMatch]
    constructor
    · intro h; cases h
    · rintro ⟨pre, post, h, _, _, _, _⟩
      have : ([] : List Char).length = (pre ++ ("cid=".data ++ (cid ++ post))).length := by
        rw [← h]
      simp at this
      omega
  | cons c cs ih =>
    unfold cidMatch
    by_cases hhere : "cid=".data.isPrefixOf (c :: cs) = true ∧
        ¬ (((c :: cs).drop 4).takeWhile isDigit).isEmpty = true
    · rw [if_pos hhere]
      constructor
      · intro h
        simp only [Option.some.injEq] at h
        obtain ⟨post, hs, hne, hds, hpost⟩ :=
          (cid_here_iff (c :: cs) cid).mp ⟨hhere.1, hhere.2, h⟩
        refine ⟨[], post, by simpa using hs, hne, hds, hpost, ?_⟩
        intro a b d _ hlen
        simp at hlen
      · rintro ⟨pre, post, hs, hne, hds, hpost, hleft⟩
        cases pre with
        | nil =>
          have := (cid_here_iff (c :: cs) cid).mpr ⟨post, by simpa using hs, hne, hds, hpost⟩
          rw [this.2.2]
        | cons p pre' =>
          exfalso
          obtain ⟨t, ht⟩ := (cidPrefix_iff (c :: cs)).mp hhere.1
          have hnot := (cid_not_here_iff (c :: cs)).mpr
            (fun d b hdb => hleft [] b d (by simpa using hdb) (by simp))
          exact hnot hhere
    · rw [if_neg hhere, ih]
      have hnot := (cid_not_here_iff (c :: cs)).mp hhere
      constructor
      · rintro ⟨pre, post, hs, hne, hds, hpost, hleft⟩
        refine ⟨c :: pre, post, by rw [hs]; rfl, hne, hds, hpost, ?_⟩
        intro a b d hab hlen
        cases a with
        | nil => exact hnot d b (by simpa using hab)
        | cons x a' =>
          simp only [List.cons_append, List.cons.injEq] at hab
          exact hleft a' b d hab.2 (by simpa using hlen)
      · rintro ⟨pre, post, hs, hne, hds, hpost, hleft⟩
        cases pre with
        | nil =>
          exfalso
          have := (cid_here_iff (c :: cs) cid).mpr ⟨post, by simpa using hs, hne, hds, hpost⟩
          exact hhere ⟨this.1, this.2.1⟩
        | cons p pre' =>
          simp only [List.cons_append, List.cons.injEq] at hs
          refine ⟨pre', post, hs.2, hne, hds, hpost, ?_⟩
          intro a b d hab hlen
          exact hleft (c :: a) b d (by rw [hab]; rfl) (by simpa using hlen)

theorem hasSubstring_iff (pat s : List Char) :
    hasSubstring pat s = true ↔ ∃ pre post, s = pre ++ (pat ++ post) := by
  induction s with
  | nil =>
    simp only [hasSubstring, List.isEmpty_iff]
    constructor
    · rintro rfl
      exact ⟨[], [], rfl⟩
    · rintro ⟨pre, post, h⟩
      have h' := congrArg List.length h
      simp only [List.length_nil, List.length_append] at h'
      exact List.length_eq_zero.mp (by omega)
  | cons c cs ih =>
    simp only [hasSubstring, Bool.or_eq_true, ih, List.isPrefixOf_iff_prefix]
    constructor
    · rintro (⟨t, ht⟩ | ⟨pre, post, h⟩)
      · exact ⟨[], t, by simpa using ht.symm⟩
      · exact ⟨c :: pre, post, by rw [h]; rfl⟩
    · rintro ⟨pre, post, h⟩
      cases pre with
      | nil => exact Or.inl ⟨post, by simpa using h.symm⟩
      | cons p pre' =>
        simp only [List.cons_append, List.cons.injEq] at h
        exact Or.inr ⟨pre', post, h.2⟩

/-! ## Auxiliary lemmas: document -/

theorem findFirst_eq_none_iff (p : Element → Bool) (d : Dom) :
    Dom.findFirst p d = none ↔ ∀ n ∈ d.nodes, p n.1 = false := by
  induction d with
  | nil => simp [Dom.findFirst, Dom.nodes]
  | node e ch nx ihc ihn =>
    unfold Dom.findFirst
    simp only [Dom.nodes, List.mem_cons, List.mem_append]
    by_cases he : p e = true
    · simp only [he, if_true]
      constructor
      · intro h; cases h
      · intro h
        have := h (e, ch) (Or.inl rfl)
        simp [he] at this
    · simp only [he]
      cases hc : Dom.findFirst p ch with
      | some r =>
        constructor
        · intro h; simp at h
        · intro h
          have : Dom.findFirst p ch = none :=
            ihc.mpr (fun n hn => h n (Or.inr (Or.inl hn)))
          rw [hc] at this
          cases this
      | none =>
        simp only [Bool.false_eq_true, if_false]
        rw [ihn]
        constructor
        · intro h n hn
          rcases hn with rfl | hn | hn
          · simpa using he
          · exact ihc.mp hc n hn
          · exact h n hn
        · intro h n hn
          exact h n (Or.inr (Or.inr hn))

theorem removeFirst_none (p : Element → Bool) (d : Dom)
    (h : (d.nodes.filter (fun n => p n.1)).length ≤ 1) :
    ∀ n ∈ (Dom.removeFirst p d).nodes, p n.1 = false := by
  induction d with
  | nil => simp [Dom.removeFirst, Dom.nodes]
  | node e ch nx ihc ihn =>
    unfold Dom.removeFirst
    simp only [Dom.nodes, List.filter_cons, List.filter_append] at h
    by_cases he : p e = true
    · simp only [he, if_true, List.length_cons, List.length_append] at h
      have hnx : (nx.nodes.filter (fun n => p n.1)).length = 0 := by omega
      simp only [he, if_true]
      intro n hn
      have : n ∉ nx.nodes.filter (fun n => p n.1) := by
        rw [List.length_eq_zero] at hnx
        rw [hnx]; simp
      simpa [List.mem_filter, hn] using this
    · simp only [he, Bool.false_eq_true, if_false, List.length_append] at h
      simp only [he, Bool.false_eq_true, if_false]
      cases hc : Dom.findFirst p ch with
      | some r =>
        have hpos : 0 < (ch.nodes.filter (fun n => p n.1)).length := by
          rw [List.length_pos]
          intro hnil
          have : Dom.findFirst p ch = none := by
            rw [findFirst_eq_none_iff]
            intro n hn
            have : n ∉ ch.nodes.filter (fun n => p n.1) := by rw [hnil]; simp
            simpa [List.mem_filter, hn] using this
          rw [hc] at this
          cases this
        have hnx : (nx.nodes.filter (fun n => p n.1)).length = 0 := by omega
        simp only [Dom.nodes, List.mem_cons, List.mem_append]
        intro n hn
        rcases hn with rfl | hn | hn
        · simpa using he
        · exact ihc (by omega) n hn
        · have : n ∉ nx.nodes.filter (fun n => p n.1) := by
            rw [List.length_eq_zero] at hnx
            rw [hnx]; simp
          simpa [List.mem_filter, hn] using this
      | none =>
        simp only [Dom.nodes, List.mem_cons, List.mem_append]
        intro n hn
        rcases hn with rfl | hn | hn
        · simpa using he
        · exact (findFirst_eq_none_iff p ch).mp hc n hn
        · exact ihn (by omega) n hn

theorem filter_eq_nil_of_none {α : Type} (q : α → Bool) (l : List α)
    (h : ∀ n ∈ l, q n = false) : l.filter q = [] := by
  rw [List.filter_eq_nil_iff]
  intro n hn
  simp [h n hn]

theorem insertFirstChild_filter (p a : Element → Bool) (ne : Element) (nch : Dom)
    (hne : p ne = true) (hnch : ∀ n ∈ nch.nodes, p n.1 = false) (d : Dom)
    (hd : ∀ n ∈ d.nodes, p n.1 = false) (hfound : Dom.findFirst a d ≠ none) :
    (Dom.insertFirstChild a ne nch d).nodes.filter (fun n => p n.1) = [(ne, nch)] := by
  induction d with
  | nil => simp [Dom.findFirst] at hfound
  | node e ch nx ihc ihn =>
    have hpe : p e = false := hd (e, ch) (by simp [Dom.nodes])
    have hch : ∀ n ∈ ch.nodes, p n.1 = false :=
      fun n hn => hd n (by simp [Dom.nodes, hn])
    have hnx : ∀ n ∈ nx.nodes, p n.1 = false :=
      fun n hn => hd n (by simp [Dom.nodes, hn])
    have fch := filter_eq_nil_of_none (fun n : Element × Dom => p n.1) _ hch
    have fnx := filter_eq_nil_of_none (fun n : Element × Dom => p n.1) _ hnx
    have fnch := filter_eq_nil_of_none (fun n : Element × Dom => p n.1) _ hnch
    unfold Dom.insertFirstChild
    unfold Dom.findFirst at hfound
    by_cases he : a e = true
    · simp [he, Dom.nodes, List.filter_cons, List.filter_append, hpe, hne, fch, fnx, fnch]
    · simp only [he, Bool.false_eq_true, if_false] at hfound ⊢
      cases hc : Dom.findFirst a ch with
      | some r =>
        have := ihc hch (by rw [hc]; simp)
        simp [Dom.nodes, List.filter_cons, List.filter_append, hpe, this, fnx]
      | none =>
        rw [hc] at hfound
        have := ihn hnx (by simpa using hfound)
        simp [Dom.nodes, List.filter_cons, List.filter_append, hpe, this, fch]

theorem insertFirstChild_findFirst (a : Element → Bool) (ne : Element) (nch : Dom) (d : Dom)
    (e : Element) (ch : Dom) (hfound : Dom.findFirst a d = some (e, ch)) :
    Dom.findFirst a (Dom.insertFirstChild a ne nch d) = some (e, Dom.node ne nch ch) := by
  induction d with
  | nil => simp [Dom.findFirst] at hfound
  | node e' ch' nx ihc ihn =>
    unfold Dom.insertFirstChild
    unfold Dom.findFirst at hfound
    by_cases he : a e' = true
    · simp only [he, if_true, Option.some.injEq, Prod.mk.injEq] at hfound ⊢
      obtain ⟨rfl, rfl⟩ := hfound
      simp [Dom.findFirst, he]
    · simp only [he, Bool.false_eq_true, if_false] at hfound ⊢
      cases hc : Dom.findFirst a ch' with
      | some r =>
        rw [hc] at hfound
        simp only [Option.some.injEq] at hfound
        subst hfound
        simp [Dom.findFirst, he, ihc hc]
      | none =>
        rw [hc] at hfound
        simp only at hfound
        simp [Dom.findFirst, he, hc, ihn hfound]

theorem findFirst_some_spec (p : Element → Bool) (d : Dom) (n : Element × Dom)
    (h : Dom.findFirst p d = some n) :
    ∃ before after, d.nodes = before ++ n :: after ∧ p n.1 = true ∧
      ∀ m ∈ before, p m.1 = false := by
  induction d with
  | nil => simp [Dom.findFirst] at h
  | node e ch nx ihc ihn =>
    unfold Dom.findFirst at h
    by_cases he : p e = true
    · simp only [he, if_true, Option.some.injEq] at h
      subst h
      exact ⟨[], ch.nodes ++ nx.nodes, by simp [Dom.nodes], he, by simp⟩
    · simp only [he, Bool.false_eq_true, if_false] at h
      cases hc : Dom.findFirst p ch with
      | some r =>
        rw [hc] at h
        simp only [Option.some.injEq] at h
        subst h
        obtain ⟨before, after, hn, hp, hb⟩ := ihc hc
        refine ⟨(e, ch) :: before, after ++ nx.nodes, by simp [Dom.nodes, hn], hp, ?_⟩
        intro m hm
        rcases List.mem_cons.mp hm with rfl | hm
        · simpa using he
        · exact hb m hm
      | none =>
        rw [hc] at h
        simp only at h
        obtain ⟨before, after, hn, hp, hb⟩ := ihn h
        refine ⟨(e, ch) :: (ch.nodes ++ before), after, by simp [Dom.nodes, hn], hp, ?_⟩
        intro m hm
        rcases List.mem_cons.mp hm with rfl | hm
        · simpa using he
        · rcases List.mem_append.mp hm with hm | hm
          · exact (findFirst_eq_none_iff p ch).mp hc m hm
          · exact hb m hm

theorem removeFirst_insertFirstChild (p a : Element → Bool) (ne : Element) (nch : Dom)
    (hne : p ne = true) (d : Dom) (hd : ∀ n ∈ d.nodes, p n.1 = false)
    (hfound : Dom.findFirst a d ≠ none) :
    Dom.findFirst p (Dom.insertFirstChild a ne nch d) ≠ none ∧
    Dom.removeFirst p (Dom.insertFirstChild a ne nch d) = d := by
  induction d with
  | nil => simp [Dom.findFirst] at hfound
  | node e ch nx ihc ihn =>
    have hpe : p e = false := hd (e, ch) (by simp [Dom.nodes])
    have hch : ∀ n ∈ ch.nodes, p n.1 = false :=
      fun n hn => hd n (by simp [Dom.nodes, hn])
    have hnx : ∀ n ∈ nx.nodes, p n.1 = false :=
      fun n hn => hd n (by simp [Dom.nodes, hn])
    have fch : Dom.findFirst p ch = none := (findFirst_eq_none_iff p ch).mpr hch
    unfold Dom.insertFirstChild
    unfold Dom.findFirst at hfound
    by_cases he : a e = true
    · simp only [he, if_true]
      constructor
      · simp [Dom.findFirst, hpe, hne]
      · simp [Dom.removeFirst, Dom.findFirst, hpe, hne]
    · simp only [he, Bool.false_eq_true, if_false] at hfound ⊢
      cases hc : Dom.findFirst a ch with
      | some r =>
        obtain ⟨h1, h2⟩ := ihc hch (by rw [hc]; simp)
        simp only
        cases hf : Dom.findFirst p (Dom.insertFirstChild a ne nch ch) with
        | none => exact absurd hf h1
        | some s =>
          constructor
          · simp [Dom.findFirst, hpe, hf]
          · simp [Dom.removeFirst, hpe, hf, h2]
      | none =>
        rw [hc] at hfound
        obtain ⟨h1, h2⟩ := ihn hnx (by simpa using hfound)
        simp only
        constructor
        · simp only [Dom.findFirst, hpe, fch, Bool.false_eq_true, if_false]
          exact h1
        · simp [Dom.removeFirst, hpe, fch, h2]

theorem mem_insertFirstChild (a : Element → Bool) (ne : Element) (nch : Dom) (d : Dom)
    (hfound : Dom.findFirst a d ≠ none) :
    (ne, nch) ∈ (Dom.insertFirstChild a ne nch d).nodes := by
  induction d with
  | nil => simp [Dom.findFirst] at hfound
  | node e ch nx ihc ihn =>
    unfold Dom.insertFirstChild
    unfold Dom.findFirst at hfound
    by_cases he : a e = true
    · simp [he, Dom.nodes]
    · simp only [he, Bool.false_eq_true, if_false] at hfound ⊢
      cases hc : Dom.findFirst a ch with
      | some r =>
        have := ihc (by rw [hc]; simp)
        simp [Dom.nodes, this]
      | none =>
        rw [hc] at hfound
        have := ihn (by simpa using hfound)
        simp [Dom.nodes, this]

theorem nodes_append (d g : Dom) : (Dom.append d g).nodes = d.nodes ++ g.nodes := by
  induction d with
  | nil => simp [Dom.append, Dom.nodes]
  | node e ch nx _ ihn => simp [Dom.append, Dom.nodes, ihn]

theorem mem_nodes_of_child (d : Dom) (e : Element) (ch : Dom) (n : Element × Dom)
    (h : (e, ch) ∈ d.nodes) (hn : n ∈ ch.nodes) : n ∈ d.nodes := by
  induction d with
  | nil => simp [Dom.nodes] at h
  | node e' ch' nx ihc ihn =>
    simp only [Dom.nodes, List.mem_cons, List.mem_append, Prod.mk.injEq] at h ⊢
    rcases h with ⟨rfl, rfl⟩ | h | h
    · exact Or.inr (Or.inl hn)
    · exact Or.inr (Or.inl (ihc h))
    · exact Or.inr (Or.inr (ihn h))

/-! ## Auxiliary lemmas: rendering -/

theorem removeExistingResult_none (doc : Dom)
    (h : (doc.withId "deck-score-result").length ≤ 1) :
    ∀ n ∈ (removeExistingResult doc).nodes, hasId "deck-score-result" n.1 = false := by
  unfold removeExistingResult
  cases hf : doc.findFirst (hasId "deck-score-result") with
  | some r => exact removeFirst_none _ doc h
  | none => exact (findFirst_eq_none_iff _ doc).mp hf

theorem removeExistingResult_insertIntoTarget (ch : Dom) (d : Dom)
    (hd : ∀ n ∈ d.nodes, hasId "deck-score-result" n.1 = false) :
    removeExistingResult (insertIntoTarget resultContainer ch d) = d := by
  have hrc : hasId "deck-score-result" resultContainer = true := by decide
  unfold insertIntoTarget
  cases ha : d.findFirst (hasId "article_body") with
  | some r =>
    obtain ⟨h1, h2⟩ := removeFirst_insertFirstChild (hasId "deck-score-result")
      (hasId "article_body") resultContainer ch hrc d hd (by rw [ha]; simp)
    unfold removeExistingResult
    simp only
    cases hf : Dom.findFirst (hasId "deck-score-result")
        (Dom.insertFirstChild (hasId "article_body") resultContainer ch d) with
    | none => exact absurd hf h1
    | some s => exact h2
  | none =>
    simp only [removeExistingResult, Dom.findFirst, hrc, if_true, Dom.removeFirst]

theorem insertIntoTarget_withId (ch : Dom) (d : Dom)
    (hd : ∀ n ∈ d.nodes, hasId "deck-score-result" n.1 = false)
    (hch : ∀ n ∈ ch.nodes, hasId "deck-score-result" n.1 = false) :
    (insertIntoTarget resultContainer ch d).withId "deck-score-result" =
      [(resultContainer, ch)] := by
  have hrc : hasId "deck-score-result" resultContainer = true := by decide
  have fch := filter_eq_nil_of_none
    (fun n : Element × Dom => hasId "deck-score-result" n.1) _ hch
  have fd := filter_eq_nil_of_none
    (fun n : Element × Dom => hasId "deck-score-result" n.1) _ hd
  unfold insertIntoTarget Dom.withId
  cases ha : d.findFirst (hasId "article_body") with
  | some r =>
    exact insertFirstChild_filter _ _ _ _ hrc hch d hd (by rw [ha]; simp)
  | none =>
    simp only [Dom.nodes, List.filter_cons, List.filter_append, hrc, fch, fd, if_true,
      List.append_nil]

theorem insertIntoTarget_position (ch : Dom) (d : Dom)
    (hch : ∀ n ∈ ch.nodes, hasId "article_body" n.1 = false) :
    match (insertIntoTarget resultContainer ch d).findFirst (hasId "article_body") with
    | some (_, kids) => kids.firstChild = some (resultContainer, ch)
    | none => (insertIntoTarget resultContainer ch d).firstChild =
        some (resultContainer, ch) := by
  unfold insertIntoTarget
  cases ha : d.findFirst (hasId "article_body") with
  | some r =>
    obtain ⟨e, kids⟩ := r
    simp only
    rw [insertFirstChild_findFirst _ _ _ _ e kids ha]
    rfl
  | none =>
    have hfch : Dom.findFirst (hasId "article_body") ch = none :=
      (findFirst_eq_none_iff _ _).mpr hch
    have hrc : hasId "article_body" resultContainer = false := by decide
    simp only
    have : Dom.findFirst (hasId "article_body") (Dom.node resultContainer ch d) = none := by
      simp only [Dom.findFirst, hrc, hfch, ha, Bool.false_eq_true, if_false]
    rw [this]
    rfl

theorem mem_insertIntoTarget (e : Element) (ch : Dom) (d : Dom) :
    (e, ch) ∈ (insertIntoTarget e ch d).nodes := by
  unfold insertIntoTarget
  cases ha : d.findFirst (hasId "article_body") with
  | some r => exact mem_insertFirstChild _ _ _ _ (by rw [ha]; simp)
  | none => simp [Dom.nodes]

/-- A second call of `displayResults` replaces the result of the first. -/
theorem displayResults_twice_eq (browser : Browser) (this1 this2 : DeckScoreCalculator)
    (doc : Dom) (h : (doc.withId "deck-score-result").length ≤ 1) :
    displayResults browser this2 (displayResults browser this1 doc) =
      displayResults browser this2 doc := by
  unfold displayResults
  rw [removeExistingResult_insertIntoTarget _ _ (removeExistingResult_none doc h)]

theorem listItems_roots (browser : Browser) (cards : List ScoredCard) :
    (listItems browser cards).roots.map (fun e => e.innerHTML) = cards.map listItemHTML := by
  induction cards with
  | nil => rfl
  | cons c rest ih => simp [listItems, Dom.roots, ih]

theorem listItems_roots_tag (browser : Browser) (cards : List ScoredCard) :
    ∀ e ∈ (listItems browser cards).roots, e.tag = "li" := by
  induction cards with
  | nil => simp [listItems, Dom.roots]
  | cons c rest ih =>
    intro e he
    simp only [listItems, Dom.roots, List.mem_cons] at he
    rcases he with rfl | he
    · rfl
    · exact ih e he

/-! ## Auxiliary lemmas: occurrence counts -/

theorem JSObject.get_set {α : Type} (obj : JSObject α) (k k' : String) (v : α) :
    (JSObject.set obj k v).get k' = if k = k' then some v else obj.get k' := by
  induction obj with
  | nil =>
    simp only [JSObject.set, JSObject.get]
  | cons p rest ih =>
    obtain ⟨a, w⟩ := p
    simp only [JSObject.set]
    by_cases hak : a = k
    · subst hak
      by_cases hk : a = k'
      · simp [JSObject.get, hk]
      · simp [JSObject.get, hk]
    · simp only [hak, if_false, JSObject.get]
      by_cases hk' : a = k'
      · subst hk'
        simp [hak, Ne.symm hak]
      · simp only [hk', if_false]
        exact ih

/-- The number of anchors of a list that carry the identifier `cid`. -/
theorem countLink_foldl_get (links : List Element) (counts : JSObject Nat) (cid : String) :
    ((links.foldl countLink counts).get cid).getD 0 =
      (counts.get cid).getD 0 +
        (links.filter (fun e => decide (linkCid e = some cid))).length := by
  induction links generalizing counts with
  | nil => simp
  | cons e rest ih =>
    simp only [List.foldl_cons]
    rw [ih]
    unfold countLink
    cases he : linkCid e with
    | none => simp [List.filter_cons, he]
    | some c =>
      simp only [JSObject.get_set, List.filter_cons, he]
      by_cases hc : c = cid
      · subst hc
        simp
        omega
      · simp [hc]

theorem countLink_foldl_get_none (links : List Element) (counts : JSObject Nat)
    (cid : String) :
    (links.foldl countLink counts).get cid = none ↔
      counts.get cid = none ∧ links.filter (fun e => decide (linkCid e = some cid)) = [] := by
  induction links generalizing counts with
  | nil => simp
  | cons e rest ih =>
    simp only [List.foldl_cons]
    rw [ih]
    unfold countLink
    cases he : linkCid e with
    | none => simp [List.filter_cons, he]
    | some c =>
      simp only [JSObject.get_set, List.filter_cons, he]
      by_cases hc : c = cid
      · subst hc
        simp
      · simp [hc]

theorem countLink_foldl_of_none (links : List Element) (counts : JSObject Nat)
    (h : ∀ e ∈ links, linkCid e = none) : links.foldl countLink counts = counts := by
  induction links generalizing counts with
  | nil => rfl
  | cons e rest ih =>
    have he := h e (List.mem_cons_self _ _)
    simp only [List.foldl_cons]
    rw [show countLink counts e = counts by simp [countLink, he]]
    exact ih counts (fun e' he' => h e' (List.mem_cons_of_mem _ he'))

theorem extractCardData_cardCounts (this : DeckScoreCalculator) (doc : Dom) :
    (extractCardData this doc).cardCounts =
      (cardLinks doc "main" ++ cardLinks doc "extra" ++ cardLinks doc "side").foldl
        countLink [] := by
  simp [extractCardData, List.foldl_append]

theorem JSObject.keys_set {α : Type} (obj : JSObject α) (k : String) (v : α) :
    (JSObject.set obj k v).map Prod.fst =
      if k ∈ obj.map Prod.fst then obj.map Prod.fst else obj.map Prod.fst ++ [k] := by
  induction obj with
  | nil => simp [JSObject.set]
  | cons p rest ih =>
    obtain ⟨a, w⟩ := p
    simp only [JSObject.set]
    by_cases hak : a = k
    · subst hak
      simp
    · have hka : ¬ k = a := fun h => hak h.symm
      simp only [hak, if_false, List.map_cons, List.mem_cons, hka, false_or, ih]
      split_ifs <;> simp

theorem countLink_foldl_nodup (links : List Element) (counts : JSObject Nat)
    (h : (counts.map Prod.fst).Nodup) :
    ((links.foldl countLink counts).map Prod.fst).Nodup := by
  induction links generalizing counts with
  | nil => exact h
  | cons e rest ih =>
    simp only [List.foldl_cons]
    apply ih
    unfold countLink
    cases he : linkCid e with
    | none => exact h
    | some c =>
      simp only [JSObject.keys_set]
      split_ifs with hc
      · exact h
      · rw [List.nodup_append]
        refine ⟨h, List.nodup_singleton c, ?_⟩
        intro a ha hb
        simp only [List.mem_singleton] at hb
        subst hb
        exact hc ha

theorem JSObject.mem_set {α : Type} (obj : JSObject α) (k : String) (v : α)
    (p : String × α) (hp : p ∈ JSObject.set obj k v) : p ∈ obj ∨ p = (k, v) := by
  induction obj with
  | nil =>
    simp only [JSObject.set, List.mem_singleton] at hp
    exact Or.inr hp
  | cons q rest ih =>
    obtain ⟨a, w⟩ := q
    simp only [JSObject.set] at hp
    by_cases hak : a = k
    · subst hak
      simp only [if_true, List.mem_cons] at hp
      rcases hp with rfl | hp
      · exact Or.inr rfl
      · exact Or.inl (List.mem_cons_of_mem _ hp)
    · simp only [hak, if_false, List.mem_cons] at hp
      rcases hp with rfl | hp
      · exact Or.inl (List.mem_cons_self _ _)
      · rcases ih hp with h | h
        · exact Or.inl (List.mem_cons_of_mem _ h)
        · exact Or.inr h

theorem countLink_foldl_pos (links : List Element) (counts : JSObject Nat)
    (h : ∀ p ∈ counts, 1 ≤ p.2) : ∀ p ∈ links.foldl countLink counts, 1 ≤ p.2 := by
  induction links generalizing counts with
  | nil => exact h
  | cons e rest ih =>
    simp only [List.foldl_cons]
    apply ih
    unfold countLink
    cases he : linkCid e with
    | none => exact h
    | some c =>
      intro p hp
      rcases JSObject.mem_set _ _ _ p hp with hp | rfl
      · exact h p hp
      · simp

theorem extractCardData_pos (this : DeckScoreCalculator) (doc : Dom) :
    ∀ p ∈ (extractCardData this doc).cardCounts, 1 ≤ p.2 := by
  rw [extractCardData_cardCounts]
  exact countLink_foldl_pos _ [] (by simp)

/-! ## Total score -/

set_option maxRecDepth 100000 in
/-- C1, counterexample: with the scores `1 ↦ 2 ^ 53`, `2 ↦ 1`, `3 ↦ 1` and one copy of
each card, `calculateScore` visits the cards in the order 1, 2, 3 and leaves the total
`2 ^ 53`, not the sum `2 ^ 53 + 2`; in the order 2, 3, 1 the loop gives `2 ^ 53 + 2`. -/
theorem calculateScore_total_rounding_counterexample :
    (calculateScore exampleBrowser
        (newCalculator [("1", .num 9007199254740992), ("2", .num 1), ("3", .num 1)])
        threeCardDeck).1.cardCounts = [("1", 1), ("2", 1), ("3", 1)] ∧
    (calculateScore exampleBrowser
        (newCalculator [("1", .num 9007199254740992), ("2", .num 1), ("3", .num 1)])
        threeCardDeck).1.totalScore = .fin 9007199254740992 ∧
    (9007199254740992 * 1 + 1 * 1 + 1 * 1 : Int) = 9007199254740994 ∧
    scoreLoop [("1", .num 9007199254740992), ("2", .num 1), ("3", .num 1)]
      [("2", 1), ("3", 1), ("1", 1)] = .fin 9007199254740994 ∧
    scoreLoop [("1", .num 9007199254740992), ("2", .num 1), ("3", .num 1)]
      [("2", 1), ("3", 1), ("1", 1)] ≠
    scoreLoop [("1", .num 9007199254740992), ("2", .num 1), ("3", .num 1)]
      [("1", 1), ("2", 1), ("3", 1)] := by
  decide

set_option maxRecDepth 100000 in
/-- C1, amended: when every score of the counts map is finite, every count is at most
`2 ^ 53` and the sum of `|score| * count` is at most `2 ^ 53`, `calculateScore` sets
`totalScore` to the sum of `getScoreByCID(id) * count` over the counts it has extracted,
the loop gives this sum for every counts map in that range and for every order of its
entries, and the table `18050 ↦ 5` with three copies of card 18050 gives 15. -/
theorem calculateScore_totalScore_eq_sum (browser : Browser) (this : DeckScoreCalculator)
    (doc : Dom) (scores : JSObject JSValue) (counts : JSObject Nat) :
    (ExactRange this.scores (extractCardData this doc).cardCounts →
      (calculateScore browser this doc).1.totalScore =
        .fin (((extractCardData this doc).cardCounts.map
          (fun p => (getScoreByCID this.scores p.1).toInt * (p.2 : Int))).sum)) ∧
    (calculateScore browser this doc).1.cardCounts = (extractCardData this doc).cardCounts ∧
    (ExactRange scores counts →
      scoreLoop scores counts =
        .fin ((counts.map (fun p => (getScoreByCID scores p.1).toInt * (p.2 : Int))).sum) ∧
      ∀ entries : List (String × Nat), entries.Perm counts →
        scoreLoop scores entries = scoreLoop scores counts) ∧
    (calculateScore exampleBrowser (newCalculator [("18050", .num 5)])
      exampleDeck).1.totalScore = .fin 15 ∧
    scoreLoop [("18050", .num 5)] [("18050", 3)] = .fin 15 := by
  refine ⟨?_, rfl, ?_, by decide, by decide⟩
  · intro h
    have hp := objectEntries_perm (extractCardData this doc).cardCounts
    have h' := exactRange_perm this.scores _ _ hp h
    show scoreLoop (extractCardData this doc).scores
      (objectEntries (extractCardData this doc).cardCounts) = _
    have hs : (extractCardData this doc).scores = this.scores := rfl
    rw [hs, scoreLoop_exact _ _ h', exactTotal_perm _ _ _ hp]
    rfl
  · intro h
    refine ⟨scoreLoop_exact _ _ h, ?_⟩
    intro entries hperm
    rw [scoreLoop_exact _ _ (exactRange_perm _ _ _ hperm h), scoreLoop_exact _ _ h,
      exactTotal_perm _ _ _ hperm]

set_option maxRecDepth 100000 in
/-- Witness for C1: the default table and the counts of the example deck in two
orders. -/
theorem calculateScore_totalScore_eq_sum_witness :
    ExactRange getDefaultScores [("18050", 3), ("4007", 2), ("12", 1)] ∧
    List.Perm [("4007", 2), ("18050", 3), ("12", 1)] [("18050", 3), ("4007", 2), ("12", 1)] ∧
    scoreLoop getDefaultScores [("4007", 2), ("18050", 3), ("12", 1)] =
      scoreLoop getDefaultScores [("18050", 3), ("4007", 2), ("12", 1)] :=
  ⟨by unfold ExactRange; decide, List.Perm.swap _ _ _,
   ((calculateScore_totalScore_eq_sum exampleBrowser (newCalculator getDefaultScores)
      exampleDeck getDefaultScores [("18050", 3), ("4007", 2), ("12", 1)]).2.2.1
      (by unfold ExactRange; decide)).2 _ (List.Perm.swap _ _ _)⟩

/-! ## Score lookup -/

set_option maxRecDepth 100000 in
/-- C2, counterexample: `"5pts"` is not a numeric string, yet as the table entry of
identifier `1` it gives the score 5, not 0. -/
theorem getScoreByCID_nonNumeric_counterexample :
    JSObject.get [("1", JSValue.str "5pts")] "1" = some (JSValue.str "5pts") ∧
    isNumericString "5pts" = false ∧
    getScoreByCID [("1", JSValue.str "5pts")] "1" = .fin 5 ∧
    getScoreByCID [("1", JSValue.str "5pts")] "1" ≠ .fin 0 := by
  decide

set_option maxRecDepth 100000 in
/-- C2, amended: `getScoreByCID` returns 0 when the identifier is not a key of the
table, when the entry is `undefined`, `null` or a boolean, and when the entry is a
string without a decimal digit after optional leading whitespace and an optional sign.
An entry that is a string made of optional whitespace, an optional sign and a decimal
digit run of value below `2 ^ 53` (not a `0x` prefix) gives the signed value of that
run, whatever text follows it (`"5pts"` gives 5, `" -12abc"` gives -12); a longer run
gives the nearest double (`"9007199254740993"` gives 9007199254740992) and `"0x1F"`
gives 31.  An integer entry of absolute value below `2 ^ 53` gives that integer, and
the entry `1e21`, written in exponent form by `ToString`, gives 1.  The function is
total, and an identifier absent from the table adds 0 in the loop of `calculateScore`
and leaves the total as it is without the card. -/
theorem getScoreByCID_coercion (scores : JSObject JSValue) (cid : String) :
    (scores.get cid = none → getScoreByCID scores cid = .fin 0) ∧
    (scores.get cid = some JSValue.undefined ∨ scores.get cid = some JSValue.null ∨
      (∃ b, scores.get cid = some (JSValue.bool b)) → getScoreByCID scores cid = .fin 0) ∧
    (∀ s : String, scores.get cid = some (JSValue.str s) → startsWithInteger s = false →
        getScoreByCID scores cid = .fin 0) ∧
    (∀ (s : String) (ws sign ds rest : List Char) (neg : Bool) (v : Nat),
        scores.get cid = some (JSValue.str s) →
        s.data = ws ++ (sign ++ (ds ++ rest)) →
        (∀ c ∈ ws, isJSWhitespace c = true) →
        ((sign = [] ∧ neg = false) ∨ (sign = ['+'] ∧ neg = false) ∨
          (sign = ['-'] ∧ neg = true)) →
        ds ≠ [] → (∀ c ∈ ds, isDigit c = true) →
        (∀ c, rest.head? = some c →
          isDigit c = false ∧ (ds = ['0'] → c ≠ 'x' ∧ c ≠ 'X')) →
        v = Nat.ofDigits 10 ((ds.map (fun c => c.toNat - 48)).reverse) → v < 2 ^ 53 →
        getScoreByCID scores cid = .fin (if neg then -(v : Int) else (v : Int))) ∧
    (∀ n : Int, scores.get cid = some (JSValue.num n) → n.natAbs < 2 ^ 53 →
        getScoreByCID scores cid = .fin n) ∧
    (∀ (count : Nat) (before after : List (String × Nat)), scores.get cid = none →
        (JSNum.ofNat count).isFinite = true →
        JSNum.mul (getScoreByCID scores cid) (JSNum.ofNat count) = .fin 0 ∧
        scoreLoop scores (before ++ (cid, count) :: after) =
          scoreLoop scores (before ++ after)) ∧
    getScoreByCID [("1", JSValue.str "5pts")] "1" = .fin 5 ∧
    getScoreByCID [("1", JSValue.str " -12abc")] "1" = .fin (-12) ∧
    getScoreByCID [("1", JSValue.str "0x1F")] "1" = .fin 31 ∧
    getScoreByCID [("1", JSValue.str "abc")] "1" = .fin 0 ∧
    getScoreByCID [("1", JSValue.str "9007199254740993")] "1" = .fin 9007199254740992 ∧
    getScoreByCID [("1", JSValue.num 1000000000000000000000)] "1" = .fin 1 ∧
    getScoreByCID [("1", JSValue.num 5)] "1" = .fin 5 ∧
    getScoreByCID [("1", JSValue.num 5)] "2" = .fin 0 := by
  refine ⟨?_, ?_, ?_, ?_, ?_, ?_, by decide, by decide, by decide, by decide, by decide,
    by decide, by decide, by decide⟩
  · intro h
    simp [getScoreByCID, h]
  · rintro (h | h | ⟨b, h⟩)
    · simp [getScoreByCID, h]
    · rw [getScoreByCID, h]
      decide
    · rw [getScoreByCID, h]
      cases b <;> decide
  · intro s h hs
    have hnone : parseIntChars s.data = .nan := by
      apply parseIntChars_of_not_digit
      intro c t hct
      unfold startsWithInteger at hs
      rw [hct] at hs
      exact hs
    simp [getScoreByCID, h, parseInt, JSValue.toJSString, hnone, orZero]
  · intro s ws sign ds rest neg v h hdata hws hsign hne hds hrest hv hlt
    have hp := parseIntChars_signed_digits ws sign ds rest neg hws hsign hne hds hrest
    rw [← hdata, digitsToNat_eq_ofDigits ds hds, ← hv] at hp
    have hexact : JSNum.ofInt (if neg = true then -(v : Int) else (v : Int)) =
        .fin (if neg = true then -(v : Int) else (v : Int)) := by
      apply ofInt_of_natAbs_le
      cases neg <;> simp <;> omega
    rw [hexact] at hp
    simp only [getScoreByCID, h, parseInt, JSValue.toJSString, hp]
    cases neg <;> simp [orZero]
  · intro n h hn
    simp [getScoreByCID, h, parseInt_num n hn, orZero]
  · intro count before after h hfin
    have h0 : getScoreByCID scores cid = .fin 0 := by simp [getScoreByCID, h]
    have hmul := mul_zero_ofNat count hfin
    rw [h0]
    refine ⟨hmul, ?_⟩
    unfold scoreLoop
    rw [List.foldl_append, List.foldl_append, List.foldl_cons]
    simp only [h0, hmul]
    rw [add_fin_zero _ (scoreLoop_fold_isDouble scores before (.fin 0)
      (ofInt_of_natAbs_le 0 (by decide)))]

/-- Witness for C2: the string `" +42 pts"` as a table entry. -/
theorem getScoreByCID_coercion_witness :
    JSObject.get [("7", JSValue.str " +42 pts")] "7" = some (JSValue.str " +42 pts") ∧
    getScoreByCID [("7", JSValue.str " +42 pts")] "7" = .fin 42 :=
  ⟨by decide,
   by
    have h := (getScoreByCID_coercion [("7", JSValue.str " +42 pts")] "7").2.2.2.1
      " +42 pts" [' '] ['+'] ['4', '2'] [' ', 'p', 't', 's'] false 42 (by decide)
      (by decide) (by decide) (by decide) (by decide) (by decide) (by decide)
      (by simp [Nat.ofDigits]) (by decide)
    simpa using h⟩

/-! ## Status -/

theorem gt_hundred_iff (x : JSNum) :
    x.gt (.fin 100) = true ↔ (x = .posInf ∨ ∃ n : Int, x = .fin n ∧ 100 < n) := by
  cases x <;> simp [JSNum.gt]

theorem totalScoreHTML_over (x : JSNum) (h : x.gt (.fin 100) = true) :
    totalScoreHTML x =
      "\n      <h3>Total Genesys Score: " ++ x.toJSString ++
        "</h3>\n      <div class=\"score-status over-limit\">\n        ⚠️ Over 100 Points\n      </div>\n    " := by
  simp only [totalScoreHTML, statusClass, statusLabel, h, if_true, String.append_assoc]
  rfl

theorem totalScoreHTML_within (x : JSNum) (h : x.gt (.fin 100) = false) :
    totalScoreHTML x =
      "\n      <h3>Total Genesys Score: " ++ x.toJSString ++
        "</h3>\n      <div class=\"score-status within-limit\">\n        ✅ Within 100 Points\n      </div>\n    " := by
  simp only [totalScoreHTML, statusClass, statusLabel, h, Bool.false_eq_true, if_false,
    String.append_assoc]
  rfl

theorem displayResults_mem (browser : Browser) (this : DeckScoreCalculator) (doc : Dom) :
    (resultContainer, resultChildren browser this) ∈ (displayResults browser this doc).nodes :=
  mem_insertIntoTarget _ _ _

set_option maxRecDepth 100000 in
/-- C3: the result block that `displayResults` puts into the document starts with the
summary element whose markup names the total and carries the over-limit class and label
exactly when the total is greater than 100 (an infinite total included), and the
within-limit class and label otherwise; a total of 100 is rendered within the limit
and a total of 101 over it. -/
theorem displayResults_status_threshold (browser : Browser) (this : DeckScoreCalculator)
    (doc : Dom) :
    ((this.totalScore = .posInf ∨ ∃ n : Int, this.totalScore = .fin n ∧ 100 < n) →
      ∃ rest : Dom,
        ({ tag := "div", id := "deck-score-result", classList := ["deck-score-container"],
           href := none, innerHTML := "" },
         Dom.node
          { tag := "div", id := "", classList := ["total-score"], href := none,
            innerHTML := "\n      <h3>Total Genesys Score: " ++ this.totalScore.toJSString ++
              "</h3>\n      <div class=\"score-status over-limit\">\n        ⚠️ Over 100 Points\n      </div>\n    " }
          (browser.parseHTML ("\n      <h3>Total Genesys Score: " ++
              this.totalScore.toJSString ++
              "</h3>\n      <div class=\"score-status over-limit\">\n        ⚠️ Over 100 Points\n      </div>\n    "))
          rest) ∈ (displayResults browser this doc).nodes) ∧
    (¬ (this.totalScore = .posInf ∨ ∃ n : Int, this.totalScore = .fin n ∧ 100 < n) →
      ∃ rest : Dom,
        ({ tag := "div", id := "deck-score-result", classList := ["deck-score-container"],
           href := none, innerHTML := "" },
         Dom.node
          { tag := "div", id := "", classList := ["total-score"], href := none,
            innerHTML := "\n      <h3>Total Genesys Score: " ++ this.totalScore.toJSString ++
              "</h3>\n      <div class=\"score-status within-limit\">\n        ✅ Within 100 Points\n      </div>\n    " }
          (browser.parseHTML ("\n      <h3>Total Genesys Score: " ++
              this.totalScore.toJSString ++
              "</h3>\n      <div class=\"score-status within-limit\">\n        ✅ Within 100 Points\n      </div>\n    "))
          rest) ∈ (displayResults browser this doc).nodes) ∧
    ((displayResults exampleBrowser
        { scores := [], cardCounts := [], cidToNameMap := [], nameToCidMap := [],
          totalScore := .fin 100 } Dom.nil).nodes.map
      (fun n => (n.1.id, n.1.classList, n.1.innerHTML)))[1]? =
      some ("", ["total-score"],
        "\n      <h3>Total Genesys Score: 100</h3>\n      <div class=\"score-status within-limit\">\n        ✅ Within 100 Points\n      </div>\n    ") ∧
    ((displayResults exampleBrowser
        { scores := [], cardCounts := [], cidToNameMap := [], nameToCidMap := [],
          totalScore := .fin 101 } Dom.nil).nodes.map
      (fun n => (n.1.id, n.1.classList, n.1.innerHTML)))[1]? =
      some ("", ["total-score"],
        "\n      <h3>Total Genesys Score: 101</h3>\n      <div class=\"score-status over-limit\">\n        ⚠️ Over 100 Points\n      </div>\n    ") := by
  have hmem := displayResults_mem browser this doc
  obtain ⟨rest, hrest⟩ : ∃ rest, resultChildren browser this =
      Dom.node
        { tag := "div", id := "", classList := ["total-score"], href := none,
          innerHTML := totalScoreHTML this.totalScore }
        (browser.parseHTML (totalScoreHTML this.totalScore)) rest := ⟨_, rfl⟩
  rw [hrest] at hmem
  refine ⟨?_, ?_, by decide, by decide⟩
  · intro h
    have hgt := (gt_hundred_iff this.totalScore).mpr h
    rw [totalScoreHTML_over _ hgt] at hmem
    exact ⟨rest, hmem⟩
  · intro h
    have hgt : this.totalScore.gt (.fin 100) = false := by
      cases hg : this.totalScore.gt (.fin 100) with
      | false => rfl
      | true => exact absurd ((gt_hundred_iff this.totalScore).mp hg) h
    rw [totalScoreHTML_within _ hgt] at hmem
    exact ⟨rest, hmem⟩

/-- Witness for C3: a calculator whose total is 101, on an empty page. -/
theorem displayResults_status_threshold_witness :
    (∃ n : Int, (JSNum.fin 101) = .fin n ∧ 100 < n) ∧
    ∃ rest : Dom,
      ({ tag := "div", id := "deck-score-result", classList := ["deck-score-container"],
         href := none, innerHTML := "" },
       Dom.node
        { tag := "div", id := "", classList := ["total-score"], href := none,
          innerHTML := "\n      <h3>Total Genesys Score: " ++ (JSNum.fin 101).toJSString ++
            "</h3>\n      <div class=\"score-status over-limit\">\n        ⚠️ Over 100 Points\n      </div>\n    " }
        (exampleBrowser.parseHTML ("\n      <h3>Total Genesys Score: " ++
            (JSNum.fin 101).toJSString ++
            "</h3>\n      <div class=\"score-status over-limit\">\n        ⚠️ Over 100 Points\n      </div>\n    "))
        rest) ∈ (displayResults exampleBrowser
          { scores := [], cardCounts := [], cidToNameMap := [], nameToCidMap := [],
            totalScore := .fin 101 } Dom.nil).nodes :=
  ⟨⟨101, rfl, by decide⟩,
   (displayResults_status_threshold exampleBrowser
      { scores := [], cardCounts := [], cidToNameMap := [], nameToCidMap := [],
        totalScore := .fin 101 } Dom.nil).1 (Or.inr ⟨101, rfl, by decide⟩)⟩

/-! ## Breakdown list -/

theorem ofInt_ne_nan (n : Int) : JSNum.ofInt n ≠ .nan := by
  cases n with
  | ofNat m =>
    simp only [JSNum.ofInt]
    cases roundNat m <;> simp
  | negSucc m =>
    simp only [JSNum.ofInt]
    cases roundNat (m + 1) <;> simp

theorem mul_ofNat_ne_nan (x : JSNum) (c : Nat) (hx : x.gt (.fin 0) = true) (hc : 1 ≤ c) :
    JSNum.mul x (JSNum.ofNat c) ≠ .nan := by
  have hc' : JSNum.ofNat c = .posInf ∨ ∃ r : Nat, 0 < r ∧ JSNum.ofNat c = .fin r := by
    unfold JSNum.ofNat
    show JSNum.ofInt (Int.ofNat c) = _ ∨ _
    simp only [JSNum.ofInt]
    cases hr : roundNat c with
    | none => exact Or.inl rfl
    | some r => exact Or.inr ⟨r, roundNat_pos c r (by omega) hr, rfl⟩
  cases x with
  | nan => simp [JSNum.gt] at hx
  | negInf => simp [JSNum.gt] at hx
  | posInf =>
    rcases hc' with h | ⟨r, hr, h⟩
    · rw [h]; simp [JSNum.mul]
    · rw [h]
      have : (r : Int) ≠ 0 := by omega
      have hpos : (r : Int) > 0 := by omega
      simp [JSNum.mul, JSNum.infTimes, this, hpos]
  | fin a =>
    have ha : a > 0 := by simpa [JSNum.gt] using hx
    rcases hc' with h | ⟨r, hr, h⟩
    · rw [h]
      have : a ≠ 0 := by omega
      simp [JSNum.mul, JSNum.infTimes, this, ha]
    · rw [h]
      exact ofInt_ne_nan _

theorem listItemHTML_eq (c : ScoredCard) :
    listItemHTML c =
      "\n          <span class=\"card-name\">" ++ c.name ++
        "</span>\n          <span class=\"card-info\">\n            Score " ++
        c.score.toJSString ++ " × " ++ (JSNum.ofNat c.count).toJSString ++ " = " ++
        c.totalScore.toJSString ++ "\n          </span>\n        " := by
  simp only [listItemHTML, String.append_assoc]
  rfl

theorem cardList_mem (browser : Browser) (this : DeckScoreCalculator) (doc : Dom) :
    cardListNode browser (scoredCards this) ∈ (displayResults browser this doc).nodes := by
  apply mem_nodes_of_child _ _ _ _ (displayResults_mem browser this doc)
  simp [resultChildren, Dom.nodes, nodes_append]

theorem scoredCards_ne_nan_of_pos (this : DeckScoreCalculator)
    (h : ∀ p ∈ this.cardCounts, 1 ≤ p.2) : ∀ c ∈ scoredCards this, c.totalScore ≠ .nan := by
  intro c hc
  have hc' : c ∈ visibleCards this.scores this.cidToNameMap (objectEntries this.cardCounts) :=
    (jsSort_perm _ _).mem_iff.mp hc
  unfold visibleCards at hc'
  rw [List.mem_filter, List.mem_map] at hc'
  obtain ⟨⟨p, hp, rfl⟩, hpos⟩ := hc'
  exact mul_ofNat_ne_nan _ _ hpos (h p ((objectEntries_perm _).mem_iff.mp hp))

set_option maxRecDepth 100000 in
/-- C4: the list `scoredCards` of `displayResults` is a rearrangement of the cards of
the counts map, taken in the order of `Object.entries`, whose unit score is greater
than 0: each such entry gives one card with its identifier, its count, its score and
`totalScore = score * count`, and no identifier is listed twice.  When no listed total
is `NaN` (as for every counts map with counts of at least 1, in particular every map
built by `calculateScore`), no card is followed by one of greater `totalScore` and the
cards of any one `totalScore` keep the order of the entries.  The list is rendered as
one `li` per card in this order, or as the placeholder when it is empty. -/
theorem displayResults_breakdown_sorted_stable (browser : Browser)
    (this : DeckScoreCalculator) (doc : Dom) :
    (scoredCards this).Perm
      (((objectEntries this.cardCounts).map
          (fun p => ({ cid := p.1, count := p.2, score := getScoreByCID this.scores p.1,
                       totalScore :=
                        JSNum.mul (getScoreByCID this.scores p.1) (JSNum.ofNat p.2),
                       name := getCardName this.cidToNameMap p.1 } : ScoredCard))).filter
        (fun c => c.score.gt (.fin 0))) ∧
    (objectEntries this.cardCounts).Perm this.cardCounts ∧
    ((this.cardCounts.map Prod.fst).Nodup → ((scoredCards this).map ScoredCard.cid).Nodup) ∧
    ((∀ c ∈ scoredCards this, c.totalScore ≠ .nan) →
      (scoredCards this).Pairwise (fun a b => b.totalScore.gt a.totalScore = false) ∧
      ∀ v : JSNum,
        (scoredCards this).filter (fun c => decide (c.totalScore = v)) =
          (((objectEntries this.cardCounts).map
            (fun p => ({ cid := p.1, count := p.2, score := getScoreByCID this.scores p.1,
                         totalScore :=
                          JSNum.mul (getScoreByCID this.scores p.1) (JSNum.ofNat p.2),
                         name := getCardName this.cidToNameMap p.1 } : ScoredCard))).filter
            (fun c => c.score.gt (.fin 0))).filter (fun c => decide (c.totalScore = v))) ∧
    ((∀ p ∈ this.cardCounts, 1 ≤ p.2) → ∀ c ∈ scoredCards this, c.totalScore ≠ .nan) ∧
    (∀ c ∈ scoredCards (calculateScore browser this doc).1, c.totalScore ≠ .nan) ∧
    (scoredCards this ≠ [] →
      ∃ kids : Dom,
        ({ tag := "ul", id := "", classList := ["card-score-list"], href := none,
           innerHTML := "" }, kids) ∈ (displayResults browser this doc).nodes ∧
        kids.roots.map (fun e => (e.tag, e.innerHTML)) =
          (scoredCards this).map (fun c => ("li",
            "\n          <span class=\"card-name\">" ++ c.name ++
            "</span>\n          <span class=\"card-info\">\n            Score " ++
            c.score.toJSString ++ " × " ++ (JSNum.ofNat c.count).toJSString ++ " = " ++
            c.totalScore.toJSString ++ "\n          </span>\n        "))) ∧
    (scoredCards this = [] →
      ({ tag := "ul", id := "", classList := ["card-score-list"], href := none,
         innerHTML := "<li>There`re no scored cards.</li>" },
       browser.parseHTML "<li>There`re no scored cards.</li>") ∈
        (displayResults browser this doc).nodes) ∧
    scoredCards
        { scores := [("1", .num 2), ("2", .num 1), ("3", .str "4"), ("4", .num (-3)),
                     ("10", .num 10)],
          cardCounts := [("3", 1), ("10", 1), ("2", 4), ("5", 3), ("4", 1), ("1", 2)],
          cidToNameMap := [("2", "【R】Two")], nameToCidMap := [], totalScore := .fin 0 } =
      [{ cid := "10", count := 1, score := .fin 10, totalScore := .fin 10, name := "ID: 10" },
       { cid := "1", count := 2, score := .fin 2, totalScore := .fin 4, name := "ID: 1" },
       { cid := "2", count := 4, score := .fin 1, totalScore := .fin 4, name := "Two" },
       { cid := "3", count := 1, score := .fin 4, totalScore := .fin 4, name := "ID: 3" }] := by
  have hperm : (scoredCards this).Perm
      (visibleCards this.scores this.cidToNameMap (objectEntries this.cardCounts)) :=
    jsSort_perm _ _
  refine ⟨hperm, objectEntries_perm _, ?_, ?_, scoredCards_ne_nan_of_pos this, ?_, ?_, ?_,
    by decide⟩
  · intro hnd
    refine (hperm.map ScoredCard.cid).nodup_iff.mpr ?_
    have hnd' : ((objectEntries this.cardCounts).map Prod.fst).Nodup :=
      ((objectEntries_perm this.cardCounts).map Prod.fst).nodup_iff.mpr hnd
    have h1 := ((List.filter_sublist
      ((objectEntries this.cardCounts).map (mkScoredCard this.scores this.cidToNameMap))
      (p := fun c => c.score.gt (.fin 0))).map ScoredCard.cid)
    have h2 : ((objectEntries this.cardCounts).map
        (mkScoredCard this.scores this.cidToNameMap)).map ScoredCard.cid =
        (objectEntries this.cardCounts).map Prod.fst := by
      rw [List.map_map]
      rfl
    rw [h2] at h1
    exact h1.nodup hnd'
  · intro hnan
    have hvis : ∀ c ∈ visibleCards this.scores this.cidToNameMap
        (objectEntries this.cardCounts), c.totalScore ≠ .nan :=
      fun c hc => hnan c (hperm.mem_iff.mpr hc)
    exact ⟨jsSort_sorted_desc ScoredCard.totalScore _ hvis,
      fun v => jsSort_stable ScoredCard.totalScore _ v⟩
  · exact scoredCards_ne_nan_of_pos _ (extractCardData_pos this doc)
  · intro hne
    have hmem := cardList_mem browser this doc
    have hlen : ¬ (scoredCards this).length = 0 := by
      intro h0
      exact hne (List.length_eq_zero.mp h0)
    simp only [cardListNode, hlen, if_false] at hmem
    refine ⟨_, hmem, ?_⟩
    have h1 := listItems_roots browser (scoredCards this)
    have h2 := listItems_roots_tag browser (scoredCards this)
    generalize (listItems browser (scoredCards this)).roots = roots at h1 h2
    generalize scoredCards this = cards at h1
    induction cards generalizing roots with
    | nil =>
      cases roots with
      | nil => rfl
      | cons e r => simp at h1
    | cons c cs ih =>
      cases roots with
      | nil => simp at h1
      | cons e r =>
        simp only [List.map_cons, List.cons.injEq] at h1 ⊢
        refine ⟨?_, ih r (fun x hx => h2 x (List.mem_cons_of_mem _ hx)) h1.2⟩
        rw [h2 e (List.mem_cons_self _ _), h1.1, listItemHTML_eq]
  · intro hnil
    have hmem := cardList_mem browser this doc
    rw [hnil] at hmem
    exact hmem

set_option maxRecDepth 100000 in
/-- Witness for C4: the counts of the example deck, which are all at least 1. -/
theorem displayResults_breakdown_sorted_stable_witness :
    (∀ p ∈ ([("18050", 3), ("4007", 2), ("12", 1)] : JSObject Nat), 1 ≤ p.2) ∧
    ∀ c ∈ scoredCards
        { scores := getDefaultScores, cardCounts := [("18050", 3), ("4007", 2), ("12", 1)],
          cidToNameMap := [], nameToCidMap := [], totalScore := .fin 15 },
      c.totalScore ≠ .nan :=
  ⟨by decide,
   (displayResults_breakdown_sorted_stable exampleBrowser
      { scores := getDefaultScores, cardCounts := [("18050", 3), ("4007", 2), ("12", 1)],
        cidToNameMap := [], nameToCidMap := [], totalScore := .fin 15 }
      Dom.nil).2.2.2.2.1 (by decide)⟩

/-! ## Occurrence counts -/

theorem linkCid_iff (e : Element) (c : String) :
    linkCid e = some c ↔ ∃ h : String, e.href = some h ∧ HrefHasCid h.data c.data := by
  unfold linkCid
  cases he : e.href with
  | none => simp
  | some h =>
    simp only [Option.map_eq_some', Option.some.injEq, exists_eq_left']
    constructor
    · rintro ⟨ds, hds, rfl⟩
      exact (cidMatch_iff h.data ds).mp hds
    · intro hc
      exact ⟨c.data, (cidMatch_iff h.data c.data).mpr hc, rfl⟩

theorem isCidLink_iff (e : Element) :
    isCidLink e = true ↔
      e.tag = "a" ∧ ∃ (h : String) (pre post : List Char),
        e.href = some h ∧ h.data = pre ++ ("cid=".data ++ post) := by
  unfold isCidLink
  cases he : e.href with
  | none => simp
  | some h =>
    simp only [Bool.and_eq_true, beq_iff_eq, hasSubstring_iff, Option.some.injEq]
    constructor
    · rintro ⟨ht, pre, post, hp⟩
      exact ⟨ht, h, pre, post, rfl, hp⟩
    · rintro ⟨ht, h', pre, post, rfl, hp⟩
      exact ⟨ht, pre, post, hp⟩

theorem isCardSet_iff (setType : String) (e : Element) :
    isCardSet setType e = true ↔ e.id = setType ∧ "card_set" ∈ e.classList := by
  simp [isCardSet]

set_option maxRecDepth 100000 in
/-- C5: after `extractCardData` the count stored for an identifier is the number of
anchors `a[href*="cid="]` below the first `#main.card_set`, the first `#extra.card_set`
and the first `#side.card_set` whose `href` matches `cid=<digits>` with that digit run
(the run after the first `cid=` that is followed by a digit), summed over the sections
that are present; an identifier has no entry exactly when there is no such anchor, the
keys of the map are distinct, the counts of an earlier pass play no part, an absent
container contributes no anchor, and when no anchor of any section matches the map is
empty and `calculateScore` sets the total to 0.  For the example deck the counts are 3
for card 18050, 2 for card 4007 and 1 for card 12. -/
theorem extractCardData_counts_anchors (browser : Browser) (this : DeckScoreCalculator)
    (doc : Dom) (cid : String) :
    (∀ (e : Element) (c : String),
      linkCid e = some c ↔ ∃ h : String, e.href = some h ∧ HrefHasCid h.data c.data) ∧
    (∀ e : Element, isCidLink e = true ↔
      e.tag = "a" ∧ ∃ (h : String) (pre post : List Char),
        e.href = some h ∧ h.data = pre ++ ("cid=".data ++ post)) ∧
    (∀ (setType : String) (e : Element),
      isCardSet setType e = true ↔ e.id = setType ∧ "card_set" ∈ e.classList) ∧
    (∀ (p : Element → Bool) (n : Element × Dom), doc.findFirst p = some n →
      ∃ before after, doc.nodes = before ++ n :: after ∧ p n.1 = true ∧
        ∀ m ∈ before, p m.1 = false) ∧
    (∀ setType : String, (∀ n ∈ doc.nodes, isCardSet setType n.1 = false) →
      cardLinks doc setType = []) ∧
    (∀ (setType : String) (e : Element) (ch : Dom),
      Dom.findFirst (isCardSet setType) doc = some (e, ch) →
      cardLinks doc setType = (ch.nodes.map Prod.fst).filter isCidLink) ∧
    (((extractCardData this doc).cardCounts.get cid).getD 0 =
      ((cardLinks doc "main").filter (fun e => decide (linkCid e = some cid))).length +
      ((cardLinks doc "extra").filter (fun e => decide (linkCid e = some cid))).length +
      ((cardLinks doc "side").filter (fun e => decide (linkCid e = some cid))).length) ∧
    ((extractCardData this doc).cardCounts.get cid = none ↔
      ∀ e ∈ cardLinks doc "main" ++ cardLinks doc "extra" ++ cardLinks doc "side",
        linkCid e ≠ some cid) ∧
    (((extractCardData this doc).cardCounts).map Prod.fst).Nodup ∧
    (∀ other : DeckScoreCalculator,
      (extractCardData other doc).cardCounts = (extractCardData this doc).cardCounts) ∧
    ((∀ e ∈ cardLinks doc "main" ++ cardLinks doc "extra" ++ cardLinks doc "side",
        linkCid e = none) →
      (extractCardData this doc).cardCounts = [] ∧
      (calculateScore browser this doc).1.totalScore = .fin 0) ∧
    (extractCardData
        { scores := [], cardCounts := [("999", 9), ("18050", 40)], cidToNameMap := [],
          nameToCidMap := [], totalScore := .fin 0 } exampleDeck).cardCounts =
      [("18050", 3), ("4007", 2), ("12", 1)] ∧
    linkCid (cardLink "x?cid=&cid=12ab") = some "12" ∧
    linkCid (cardLink "card_search.action?cid=") = none := by
  refine ⟨linkCid_iff, isCidLink_iff, isCardSet_iff, ?_, ?_, ?_, ?_, ?_, ?_, ?_, ?_,
    by decide, by decide, by decide⟩
  · intro p n h
    exact findFirst_some_spec p doc n h
  · intro setType h
    have := (findFirst_eq_none_iff (isCardSet setType) doc).mpr h
    simp [cardLinks, this]
  · intro setType e ch h
    simp [cardLinks, h]
  · rw [extractCardData_cardCounts, countLink_foldl_get]
    simp [JSObject.get, List.filter_append, Nat.add_assoc]
  · rw [extractCardData_cardCounts, countLink_foldl_get_none]
    simp only [JSObject.get, List.filter_eq_nil_iff, true_and, decide_eq_true_eq]
  · rw [extractCardData_cardCounts]
    exact countLink_foldl_nodup _ [] (by simp)
  · intro other
    rw [extractCardData_cardCounts, extractCardData_cardCounts]
  · intro h
    have hc : (extractCardData this doc).cardCounts = [] := by
      rw [extractCardData_cardCounts]
      exact countLink_foldl_of_none _ [] h
    refine ⟨hc, ?_⟩
    show scoreLoop (extractCardData this doc).scores
      (objectEntries (extractCardData this doc).cardCounts) = .fin 0
    rw [hc]
    rfl

set_option maxRecDepth 100000 in
/-- Witness for C5: the section `#side.card_set` of the example deck. -/
theorem extractCardData_counts_anchors_witness :
    Dom.findFirst (isCardSet "side") exampleDeck =
      some ({ tag := "div", id := "side", classList := ["card_set"], href := none,
              innerHTML := "" },
        Dom.node (cardLink "card_search.action?ope=2&cid=4007") Dom.nil
          (Dom.node (cardLink "card_search.action?cid=") Dom.nil
            (Dom.node (cardLink "x?cid=&cid=12ab") Dom.nil Dom.nil))) ∧
    cardLinks exampleDeck "side" =
      (((Dom.node (cardLink "card_search.action?ope=2&cid=4007") Dom.nil
          (Dom.node (cardLink "card_search.action?cid=") Dom.nil
            (Dom.node (cardLink "x?cid=&cid=12ab") Dom.nil Dom.nil))).nodes.map
        Prod.fst).filter isCidLink) :=
  ⟨by decide,
   (extractCardData_counts_anchors exampleBrowser (newCalculator []) exampleDeck
      "4007").2.2.2.2.2.1 "side"
      { tag := "div", id := "side", classList := ["card_set"], href := none,
        innerHTML := "" }
      (Dom.node (cardLink "card_search.action?ope=2&cid=4007") Dom.nil
        (Dom.node (cardLink "card_search.action?cid=") Dom.nil
          (Dom.node (cardLink "x?cid=&cid=12ab") Dom.nil Dom.nil))) (by decide)⟩

/-! ## Re-rendering -/

set_option maxRecDepth 100000 in
/-- C6, counterexample: the page is empty and the name of card 18050 is the markup
`<b id="deck-score-result">X</b>`.  Each call of `displayResults` writes the name into
the markup of the list item, so the result block holds a second element with the id of
the block; after two calls the document has two nodes with id `deck-score-result`. -/
theorem displayResults_twice_counterexample :
    ((Dom.nil).withId "deck-score-result").length ≤ 1 ∧
    getCardName [("18050", "<b id=\"deck-score-result\">X</b>")] "18050" =
      "<b id=\"deck-score-result\">X</b>" ∧
    ((displayResults exampleBrowser
        { scores := getDefaultScores, cardCounts := [("18050", 1)],
          cidToNameMap := [("18050", "<b id=\"deck-score-result\">X</b>")],
          nameToCidMap := [], totalScore := .fin 5 }
      (displayResults exampleBrowser
        { scores := getDefaultScores, cardCounts := [("18050", 1)],
          cidToNameMap := [("18050", "<b id=\"deck-score-result\">X</b>")],
          nameToCidMap := [], totalScore := .fin 5 } Dom.nil)).nodes.map
      (fun n => (n.1.tag, n.1.id))) =
      [("div", "deck-score-result"), ("div", ""), ("h3", ""), ("div", ""), ("div", ""),
       ("h4", ""), ("ul", ""), ("li", ""), ("span", ""), ("b", "deck-score-result"),
       ("span", "")] ∧
    ((displayResults exampleBrowser
        { scores := getDefaultScores, cardCounts := [("18050", 1)],
          cidToNameMap := [("18050", "<b id=\"deck-score-result\">X</b>")],
          nameToCidMap := [], totalScore := .fin 5 }
      (displayResults exampleBrowser
        { scores := getDefaultScores, cardCounts := [("18050", 1)],
          cidToNameMap := [("18050", "<b id=\"deck-score-result\">X</b>")],
          nameToCidMap := [], totalScore := .fin 5 } Dom.nil)).withId
      "deck-score-result").length = 2 := by
  decide

set_option maxRecDepth 100000 in
/-- C6, amended: on a document with at most one node of id `deck-score-result`, two
successive calls of `displayResults` leave the document that the second call alone
would leave.  When no element created for the second call's result block (the elements
parsed from its markup, card names included) has the id `deck-score-result` or
`article_body`, exactly one node with id `deck-score-result` remains, it is the block
built by the second call, whose first child is the summary of the second call's total,
and it is the first child of the first `#article_body` when there is one and of the
body otherwise. -/
theorem displayResults_twice_single_result (browser : Browser)
    (this1 this2 : DeckScoreCalculator) (doc : Dom)
    (h : (doc.withId "deck-score-result").length ≤ 1) :
    displayResults browser this2 (displayResults browser this1 doc) =
      displayResults browser this2 doc ∧
    ((∀ n ∈ (resultChildren browser this2).nodes,
        n.1.id ≠ "deck-score-result" ∧ n.1.id ≠ "article_body") →
      (displayResults browser this2 (displayResults browser this1 doc)).withId
          "deck-score-result" =
        [({ tag := "div", id := "deck-score-result", classList := ["deck-score-container"],
            href := none, innerHTML := "" }, resultChildren browser this2)] ∧
      (match (displayResults browser this2 (displayResults browser this1 doc)).findFirst
          (fun e => e.id == "article_body") with
        | some (_, kids) =>
          kids.firstChild =
            some ({ tag := "div", id := "deck-score-result",
                    classList := ["deck-score-container"], href := none, innerHTML := "" },
              resultChildren browser this2)
        | none =>
          (displayResults browser this2 (displayResults browser this1 doc)).firstChild =
            some ({ tag := "div", id := "deck-score-result",
                    classList := ["deck-score-container"], href := none, innerHTML := "" },
              resultChildren browser this2))) ∧
    (∃ kids rest : Dom, resultChildren browser this2 =
      Dom.node
        { tag := "div", id := "", classList := ["total-score"], href := none,
          innerHTML := "\n      <h3>Total Genesys Score: " ++ this2.totalScore.toJSString ++
            "</h3>\n      <div class=\"score-status " ++
            (if this2.totalScore.gt (.fin 100) then "over-limit" else "within-limit") ++
            "\">\n        " ++
            (if this2.totalScore.gt (.fin 100) then "⚠️ Over 100 Points"
              else "✅ Within 100 Points") ++ "\n      </div>\n    " }
        kids rest) := by
  have heq := displayResults_twice_eq browser this1 this2 doc h
  refine ⟨heq, ?_, ?_⟩
  · intro hids
    have hR : ∀ n ∈ (resultChildren browser this2).nodes,
        hasId "deck-score-result" n.1 = false := by
      intro n hn
      simpa [hasId] using (hids n hn).1
    have hA : ∀ n ∈ (resultChildren browser this2).nodes,
        hasId "article_body" n.1 = false := by
      intro n hn
      simpa [hasId] using (hids n hn).2
    rw [heq]
    constructor
    · exact insertIntoTarget_withId _ _ (removeExistingResult_none doc h) hR
    · exact insertIntoTarget_position _ _ hA
  · obtain ⟨rest, hrest⟩ : ∃ rest, resultChildren browser this2 =
        Dom.node
          { tag := "div", id := "", classList := ["total-score"], href := none,
            innerHTML := totalScoreHTML this2.totalScore }
          (browser.parseHTML (totalScoreHTML this2.totalScore)) rest := ⟨_, rfl⟩
    refine ⟨browser.parseHTML (totalScoreHTML this2.totalScore), rest, ?_⟩
    rw [hrest]
    cases hgt : this2.totalScore.gt (.fin 100)
    · rw [totalScoreHTML_within _ hgt]
      simp only [Bool.false_eq_true, if_false, String.append_assoc]
      rfl
    · rw [totalScoreHTML_over _ hgt]
      simp only [if_true, String.append_assoc]
      rfl

set_option maxRecDepth 100000 in
/-- Witness for C6: a page with a stale result node next to `#article_body`, rendered
first with a card whose name is markup and then with an unnamed card. -/
theorem displayResults_twice_single_result_witness :
    ((Dom.node { tag := "div", id := "deck-score-result", classList := [], href := none,
                 innerHTML := "stale" } Dom.nil
        (Dom.node { tag := "div", id := "article_body", classList := [], href := none,
                    innerHTML := "" } Dom.nil Dom.nil)).withId
      "deck-score-result").length ≤ 1 ∧
    displayResults exampleBrowser
        { scores := getDefaultScores, cardCounts := [("18050", 3)], cidToNameMap := [],
          nameToCidMap := [], totalScore := .fin 15 }
      (displayResults exampleBrowser
        { scores := getDefaultScores, cardCounts := [("18050", 1)],
          cidToNameMap := [("18050", "<b id=\"deck-score-result\">X</b>")],
          nameToCidMap := [], totalScore := .fin 5 }
        (Dom.node { tag := "div", id := "deck-score-result", classList := [], href := none,
                    innerHTML := "stale" } Dom.nil
          (Dom.node { tag := "div", id := "article_body", classList := [], href := none,
                      innerHTML := "" } Dom.nil Dom.nil))) =
      displayResults exampleBrowser
        { scores := getDefaultScores, cardCounts := [("18050", 3)], cidToNameMap := [],
          nameToCidMap := [], totalScore := .fin 15 }
        (Dom.node { tag := "div", id := "deck-score-result", classList := [], href := none,
                    innerHTML := "stale" } Dom.nil
          (Dom.node { tag := "div", id := "article_body", classList := [], href := none,
                      innerHTML := "" } Dom.nil Dom.nil)) :=
  ⟨by decide,
   (displayResults_twice_single_result exampleBrowser
      { scores := getDefaultScores, cardCounts := [("18050", 1)],
        cidToNameMap := [("18050", "<b id=\"deck-score-result\">X</b>")],
        nameToCidMap := [], totalScore := .fin 5 }
      { scores := getDefaultScores, cardCounts := [("18050", 3)], cidToNameMap := [],
        nameToCidMap := [], totalScore := .fin 15 }
      (Dom.node { tag := "div", id := "deck-score-result", classList := [], href := none,
                  innerHTML := "stale" } Dom.nil
        (Dom.node { tag := "div", id := "article_body", classList := [], href := none,
                    innerHTML := "" } Dom.nil Dom.nil)) (by decide)).1⟩

/-! ## Cleaning of display names -/

theorem wordsOf_head_ne_nil : ∀ (t w : List Char) (W : List (List Char)),
    wordsOf t = w :: W → w ≠ []
  | [], w, W, h => by simp [wordsOf] at h
  | [c], w, W, h => by
    rw [wordsOf] at h
    split_ifs at h
    injection h with h1 _
    subst h1
    simp
  | c :: d :: ds, w, W, h => by
    rw [wordsOf] at h
    split_ifs at h with h1 h2
    · exact wordsOf_head_ne_nil (d :: ds) w W h
    · injection h with h3 _
      subst h3
      simp
    · cases hw : wordsOf (d :: ds) with
      | nil =>
        rw [hw] at h
        simp only [consWord] at h
        injection h with h3 _
        subst h3
        simp
      | cons v V =>
        rw [hw] at h
        simp only [consWord] at h
        injection h with h3 _
        subst h3
        simp

theorem joinWords_eq_nil_iff (t : List Char) :
    joinWords (wordsOf t) = [] ↔ wordsOf t = [] := by
  constructor
  · intro h
    cases hw : wordsOf t with
    | nil => rfl
    | cons w W =>
      exfalso
      have hne := wordsOf_head_ne_nil t w W hw
      rw [hw] at h
      cases W with
      | nil => exact hne (by simpa [joinWords] using h)
      | cons v V =>
        simp only [joinWords] at h
        exact hne (List.append_eq_nil.mp h).1
  · intro h
    rw [h]
    rfl

theorem cleanedOr_eq_words (cardName : String) (t : List Char) :
    cleanedOr cardName t =
      if wordsOf t = [] then cardName else String.mk (joinWords (wordsOf t)) := by
  unfold cleanedOr
  rw [normalizeWs_eq_joinWords]
  by_cases h : wordsOf t = []
  · simp [h, joinWords]
  · have h2 : joinWords (wordsOf t) ≠ [] := fun he => h ((joinWords_eq_nil_iff t).mp he)
    simp [h, h2]

theorem cleanedOr_dropWhile_eq_words (cardName : String) (t : List Char) :
    cleanedOr cardName (t.dropWhile isJSWhitespace) =
      if wordsOf t = [] then cardName else String.mk (joinWords (wordsOf t)) := by
  rw [cleanedOr_eq_words, wordsOf_dropWhile]

/-- C8: a non-empty name is cleaned to a non-empty string, the original name is returned
when stripping and normalizing leave nothing, and `getCardName` never yields the empty
string. -/
theorem cleanCardName_nonempty (cardName : String) (cidToNameMap : JSObject String)
    (cid : String) :
    (cardName ≠ "" → cleanCardName cardName ≠ "") ∧
    (normalizeWs (stripAnnot '[' ']' (stripAnnot '【' '】' cardName.data)) = [] →
        cleanCardName cardName = cardName) ∧
    getCardName cidToNameMap cid ≠ "" := by
  have key : ∀ n : String, n ≠ "" → cleanCardName n ≠ "" := by
    intro n hn
    rw [cleanCardName_eq]
    split_ifs with h1
    · exact hn
    · unfold cleanedOr
      split_ifs with h2
      · exact hn
      · apply string_ne_empty_of_data
        simpa using h2
  refine ⟨key cardName, ?_, ?_⟩
  · intro h
    rw [cleanCardName_eq]
    split_ifs with h1
    · rfl
    · simp [cleanedOr, h]
  · unfold getCardName
    apply key
    have hid : "ID: " ++ cid ≠ "" := by
      apply string_ne_empty_of_data
      simp [String.data_append]
    cases hget : JSObject.get cidToNameMap cid with
    | none => simpa using hid
    | some n =>
      by_cases hn : n.data.isEmpty
      · simpa [hn] using hid
      · simp only [hn]
        apply string_ne_empty_of_data
        simpa using hn

/-- Witness for C8: a name that consists of an annotation only. -/
theorem cleanCardName_nonempty_witness :
    "【Rare】" ≠ "" ∧ cleanCardName "【Rare】" ≠ "" :=
  ⟨by decide, (cleanCardName_nonempty "【Rare】" [] "1").1 (by decide)⟩

set_option maxRecDepth 100000 in
/-- C7, counterexample: the name consisting of one space has no `ID:` at its start, no
leading annotation and no word, so trimming it and collapsing its whitespace gives the
empty string; `cleanCardName` returns the space itself. -/
theorem cleanCardName_plain_counterexample :
    "ID:".data.isPrefixOf " ".data = false ∧
    matchAnnot '【' '】' " ".data = none ∧
    matchAnnot '[' ']' " ".data = none ∧
    wordsOf " ".data = [] ∧
    String.mk (joinWords (wordsOf " ".data)) = "" ∧
    cleanCardName " " = " " ∧
    cleanCardName " " ≠ String.mk (joinWords (wordsOf " ".data)) := by
  decide

set_option maxRecDepth 100000 in
/-- C7, amended: a name that does not begin with `ID:` and has no leading bracketed
annotation is returned as its words joined by single spaces when it has a word, and
unchanged when it has none (a name of whitespace only); a name with a leading
wide-bracket annotation that is not followed by an ASCII-bracket annotation cleans to
the words of the text after the annotation, joined by single spaces, when that text has
a word; `【Rarity】Blue-Eyes White Dragon` cleans to `Blue-Eyes White Dragon`. -/
theorem cleanCardName_plain_or_wide_bracket (cardName : String) :
    ("ID:".data.isPrefixOf cardName.data = false →
      (¬ ∃ rest, LeadingAnnot '【' '】' cardName.data rest) →
      (¬ ∃ rest, LeadingAnnot '[' ']' cardName.data rest) →
      (wordsOf cardName.data ≠ [] →
          cleanCardName cardName = String.mk (joinWords (wordsOf cardName.data))) ∧
      (wordsOf cardName.data = [] → cleanCardName cardName = cardName)) ∧
    (∀ rest, LeadingAnnot '【' '】' cardName.data rest →
      (¬ ∃ u, LeadingAnnot '[' ']' (rest.dropWhile isJSWhitespace) u) →
      wordsOf rest ≠ [] →
      cleanCardName cardName = String.mk (joinWords (wordsOf rest))) ∧
    cleanCardName "【Rarity】Blue-Eyes White Dragon" = "Blue-Eyes White Dragon" ∧
    cleanCardName "**【Ultra Rare】  Dark \t Magician\n" = "Dark Magician" ∧
    cleanCardName "  Dark   Magician " = "Dark Magician" ∧
    cleanCardName "\tPot\n\nof  Greed\r\n" = "Pot of Greed" ∧
    cleanCardName "Kuriboh" = "Kuriboh" ∧
    cleanCardName " \t " = " \t " := by
  refine ⟨?_, ?_, by decide, by decide, by decide, by decide, by decide, by decide⟩
  · intro hid hwide hascii
    have h := cleanCardName_of_not_id cardName hid
    rw [stripAnnot_of_none '【' '】' (by decide) _ hwide,
      stripAnnot_of_none '[' ']' (by decide) _ hascii, cleanedOr_eq_words] at h
    rw [h]
    constructor
    · intro hne
      simp [hne]
    · intro he
      simp [he]
  · intro rest hwide hascii hne
    have hid := not_id_of_leading '【' '】' (by decide) _ rest hwide
    have h := cleanCardName_of_not_id cardName hid
    rw [stripAnnot_of_leading '【' '】' (by decide) _ rest hwide,
      stripAnnot_of_none '[' ']' (by decide) _ hascii, cleanedOr_dropWhile_eq_words] at h
    rw [h]
    simp [hne]

set_option maxRecDepth 100000 in
/-- Witness for C7: a plain name with surrounding and repeated whitespace. -/
theorem cleanCardName_plain_or_wide_bracket_witness :
    "ID:".data.isPrefixOf "  Dark   Magician ".data = false ∧
    wordsOf "  Dark   Magician ".data ≠ [] ∧
    cleanCardName "  Dark   Magician " =
      String.mk (joinWords (wordsOf "  Dark   Magician ".data)) :=
  ⟨by decide, by decide,
   ((cleanCardName_plain_or_wide_bracket "  Dark   Magician ").1 (by decide)
      ((matchAnnot_eq_none_iff '【' '】' (by decide) _).mp (by decide))
      ((matchAnnot_eq_none_iff '[' ']' (by decide) _).mp (by decide))).1 (by decide)⟩

set_option maxRecDepth 100000 in
/-- C9, counterexample: in `【A】[B]Name` the first replacement removes `【A】`, the
second removes `[B]`, and the result `Name` is neither the name with its whitespace
normalized nor that name with one annotation removed. -/
theorem cleanCardName_two_annotations_counterexample :
    "ID:".data.isPrefixOf "【A】[B]Name".data = false ∧
    matchAnnot '【' '】' "【A】[B]Name".data = some "[B]Name".data ∧
    matchAnnot '[' ']' "【A】[B]Name".data = none ∧
    matchAnnot '[' ']' "[B]Name".data = some "Name".data ∧
    cleanCardName "【A】[B]Name" = "Name" ∧
    cleanCardName "【A】[B]Name" ≠ "【A】[B]Name" ∧
    cleanCardName "【A】[B]Name" ≠ "[B]Name" ∧
    cleanCardName "【A】[B]Name" ≠ String.mk (joinWords (wordsOf "【A】[B]Name".data)) ∧
    cleanCardName "【A】[B]Name" ≠ String.mk (joinWords (wordsOf "[B]Name".data)) := by
  decide

set_option maxRecDepth 100000 in
/-- C9, amended: for a name that does not begin with `ID:`, `cleanCardName` strips at
most one leading wide-bracket annotation and then at most one leading ASCII-bracket
annotation of what remains (each optionally preceded by up to two asterisks), so up to
two annotations of different styles in this order and never two of the same style; the
result is the words of the stripped text joined by single spaces, or the original name
when the stripped text has no word. -/
theorem cleanCardName_strips_one_of_each (cardName : String)
    (hid : "ID:".data.isPrefixOf cardName.data = false) :
    ((¬ ∃ r, LeadingAnnot '【' '】' cardName.data r) →
      (¬ ∃ r, LeadingAnnot '[' ']' cardName.data r) →
      cleanCardName cardName =
        if wordsOf cardName.data = [] then cardName
        else String.mk (joinWords (wordsOf cardName.data))) ∧
    (∀ r, LeadingAnnot '【' '】' cardName.data r →
      (¬ ∃ u, LeadingAnnot '[' ']' (r.dropWhile isJSWhitespace) u) →
      cleanCardName cardName =
        if wordsOf r = [] then cardName else String.mk (joinWords (wordsOf r))) ∧
    (∀ r, (¬ ∃ r, LeadingAnnot '【' '】' cardName.data r) →
      LeadingAnnot '[' ']' cardName.data r →
      cleanCardName cardName =
        if wordsOf r = [] then cardName else String.mk (joinWords (wordsOf r))) ∧
    (∀ r u, LeadingAnnot '【' '】' cardName.data r →
      LeadingAnnot '[' ']' (r.dropWhile isJSWhitespace) u →
      cleanCardName cardName =
        if wordsOf u = [] then cardName else String.mk (joinWords (wordsOf u))) ∧
    cleanCardName "【A】【B】Name" = "【B】Name" ∧
    cleanCardName "[A][B]Name" = "[B]Name" ∧
    cleanCardName "[A]【B】Name" = "【B】Name" ∧
    cleanCardName "*【A】 [B] Dark  Hole" = "Dark Hole" ∧
    cleanCardName "**[Ultra] Pot of Greed" = "Pot of Greed" ∧
    cleanCardName "***【A】Name" = "***【A】Name" ∧
    cleanCardName "【A】" = "【A】" := by
  have h := cleanCardName_of_not_id cardName hid
  refine ⟨?_, ?_, ?_, ?_, by decide, by decide, by decide, by decide, by decide, by decide,
    by decide⟩
  · intro hwide hascii
    rw [stripAnnot_of_none '【' '】' (by decide) _ hwide,
      stripAnnot_of_none '[' ']' (by decide) _ hascii, cleanedOr_eq_words] at h
    exact h
  · intro r hwide hascii
    rw [stripAnnot_of_leading '【' '】' (by decide) _ r hwide,
      stripAnnot_of_none '[' ']' (by decide) _ hascii, cleanedOr_dropWhile_eq_words] at h
    exact h
  · intro r hwide hascii
    rw [stripAnnot_of_none '【' '】' (by decide) _ hwide,
      stripAnnot_of_leading '[' ']' (by decide) _ r hascii, cleanedOr_dropWhile_eq_words] at h
    exact h
  · intro r u hwide hascii
    rw [stripAnnot_of_leading '【' '】' (by decide) _ r hwide,
      stripAnnot_of_leading '[' ']' (by decide) _ u hascii, cleanedOr_dropWhile_eq_words] at h
    exact h

set_option maxRecDepth 100000 in
/-- Witness for C9: a name with an asterisk-marked wide-bracket annotation followed by
an ASCII-bracket annotation. -/
theorem cleanCardName_strips_one_of_each_witness :
    "ID:".data.isPrefixOf "*【A】 [B] Dark  Hole".data = false ∧
    cleanCardName "*【A】 [B] Dark  Hole" =
      (if wordsOf " Dark  Hole".data = [] then "*【A】 [B] Dark  Hole"
       else String.mk (joinWords (wordsOf " Dark  Hole".data))) :=
  ⟨by decide,
   (cleanCardName_strips_one_of_each "*【A】 [B] Dark  Hole" (by decide)).2.2.2.1
     " [B] Dark  Hole".data " Dark  Hole".data
     ⟨['*'], ['A'], by decide, Or.inr (Or.inl rfl), by decide⟩
     ⟨[], ['B'], by decide, Or.inl rfl, by decide⟩⟩

/-! ## Omitted cards -/

theorem fin_zero_of_not_gt (x : JSNum) (hfin : x.isFinite = true) (hnn : 0 ≤ x.toInt)
    (hgt : x.gt (.fin 0) = false) : x = .fin 0 := by
  cases x with
  | fin n =>
    simp only [JSNum.gt, decide_eq_false_iff_not] at hgt
    simp only [JSNum.toInt] at hnn
    have : n = 0 := by omega
    rw [this]
  | nan => simp [JSNum.isFinite] at hfin
  | posInf => simp [JSNum.isFinite] at hfin
  | negInf => simp [JSNum.isFinite] at hfin

theorem visibleCards_sum_exact (scores : JSObject JSValue) (names : JSObject String)
    (entries : List (String × Nat))
    (hfin : ∀ p ∈ entries, (getScoreByCID scores p.1).isFinite = true)
    (hcnt : ∀ p ∈ entries, p.2 ≤ 2 ^ 53)
    (hprod : ∀ p ∈ entries, (getScoreByCID scores p.1).toInt.natAbs * p.2 ≤ 2 ^ 53)
    (hnn : ∀ p ∈ entries, 0 ≤ (getScoreByCID scores p.1).toInt) :
    ((visibleCards scores names entries).map (fun card => card.totalScore.toInt)).sum =
      exactTotal scores entries := by
  induction entries with
  | nil => rfl
  | cons p rest ih =>
    have ih' := ih (fun q hq => hfin q (List.mem_cons_of_mem _ hq))
      (fun q hq => hcnt q (List.mem_cons_of_mem _ hq))
      (fun q hq => hprod q (List.mem_cons_of_mem _ hq))
      (fun q hq => hnn q (List.mem_cons_of_mem _ hq))
    have hp := hfin p (List.mem_cons_self _ _)
    have hs := eq_fin_toInt_of_isFinite _ hp
    unfold visibleCards at ih' ⊢
    unfold exactTotal at ih' ⊢
    simp only [List.map_cons, List.sum_cons, List.filter_cons]
    cases hgt : (getScoreByCID scores p.1).gt (.fin 0) with
    | true =>
      have hg : (mkScoredCard scores names p).score.gt (.fin 0) = true := hgt
      simp only [hg, if_true, List.map_cons, List.sum_cons]
      rw [ih']
      congr 1
      show (JSNum.mul (getScoreByCID scores p.1) (JSNum.ofNat p.2)).toInt = _
      rw [hs, mul_fin_ofNat_exact _ _ (hcnt p (List.mem_cons_self _ _))
        (hprod p (List.mem_cons_self _ _))]
      rfl
    | false =>
      have hg : (mkScoredCard scores names p).score.gt (.fin 0) = false := hgt
      simp only [hg, Bool.false_eq_true, if_false]
      rw [ih', fin_zero_of_not_gt _ hp (hnn p (List.mem_cons_self _ _)) hgt]
      simp [JSNum.toInt]

theorem exactRange_prod (scores : JSObject JSValue) (entries : List (String × Nat))
    (h : ExactRange scores entries) :
    ∀ p ∈ entries, (getScoreByCID scores p.1).toInt.natAbs * p.2 ≤ 2 ^ 53 := by
  intro p hp
  have hmem : (getScoreByCID scores p.1).toInt.natAbs * p.2 ∈
      entries.map (fun p => (getScoreByCID scores p.1).toInt.natAbs * p.2) :=
    List.mem_map_of_mem _ hp
  exact le_trans (List.single_le_sum (fun _ _ => Nat.zero_le _) _ hmem) h.2.2

set_option maxRecDepth 100000 in
/-- C10, counterexample: with the table `1 ↦ -3` and a deck page with two links to
card 1, `calculateScore` sets the total to `-6` while the breakdown of
`displayResults` is empty; the omitted card contributes `-6`, not 0, and the total
differs from the sum over the breakdown, which is 0. -/
theorem breakdown_sum_counterexample :
    (calculateScore exampleBrowser (newCalculator [("1", .num (-3))])
        (Dom.node { tag := "div", id := "main", classList := ["card_set"], href := none,
                    innerHTML := "" }
          (Dom.node (cardLink "card_search.action?cid=1") Dom.nil
            (Dom.node (cardLink "card_search.action?cid=1") Dom.nil Dom.nil))
          Dom.nil)).1.cardCounts = [("1", 2)] ∧
    (calculateScore exampleBrowser (newCalculator [("1", .num (-3))])
        (Dom.node { tag := "div", id := "main", classList := ["card_set"], href := none,
                    innerHTML := "" }
          (Dom.node (cardLink "card_search.action?cid=1") Dom.nil
            (Dom.node (cardLink "card_search.action?cid=1") Dom.nil Dom.nil))
          Dom.nil)).1.totalScore = .fin (-6) ∧
    scoredCards (calculateScore exampleBrowser (newCalculator [("1", .num (-3))])
        (Dom.node { tag := "div", id := "main", classList := ["card_set"], href := none,
                    innerHTML := "" }
          (Dom.node (cardLink "card_search.action?cid=1") Dom.nil
            (Dom.node (cardLink "card_search.action?cid=1") Dom.nil Dom.nil))
          Dom.nil)).1 = [] ∧
    JSNum.mul (getScoreByCID [("1", .num (-3))] "1") (JSNum.ofNat 2) = .fin (-6) ∧
    ((([] : List ScoredCard).map (fun card => card.totalScore.toInt)).sum) = 0 ∧
    ExactRange [("1", .num (-3))] [("1", 2)] := by
  refine ⟨by decide, by decide, by decide, by decide, by decide, ?_⟩
  unfold ExactRange
  decide

set_option maxRecDepth 100000 in
/-- C10, amended: when the scores of the extracted cards are finite and not negative,
every count is at most `2 ^ 53` and the sum of `score * count` is at most `2 ^ 53`,
every card of the counts map that the breakdown of `displayResults` does not list
contributes 0 to the total, every listed contribution is finite, and the `totalScore`
set by `calculateScore` is the sum of `totalScore` over the listed cards; the listed
cards are the items of the list that `calculateScore` puts into the document. -/
theorem breakdown_sum_of_nonneg (browser : Browser) (this : DeckScoreCalculator) (doc : Dom)
    (hrange : ExactRange this.scores (extractCardData this doc).cardCounts)
    (hnn : ∀ p ∈ (extractCardData this doc).cardCounts,
      0 ≤ (getScoreByCID this.scores p.1).toInt) :
    (∀ p ∈ objectEntries (calculateScore browser this doc).1.cardCounts,
      (∀ card ∈ scoredCards (calculateScore browser this doc).1, card.cid ≠ p.1) →
      JSNum.mul (getScoreByCID this.scores p.1) (JSNum.ofNat p.2) = .fin 0) ∧
    (∀ card ∈ scoredCards (calculateScore browser this doc).1,
      card.totalScore.isFinite = true) ∧
    (calculateScore browser this doc).1.totalScore =
      .fin (((scoredCards (calculateScore browser this doc).1).map
        (fun card => card.totalScore.toInt)).sum) ∧
    cardListNode browser (scoredCards (calculateScore browser this doc).1) ∈
      (calculateScore browser this doc).2.nodes ∧
    (calculateScore exampleBrowser (newCalculator getDefaultScores)
      exampleDeck).1.totalScore = .fin 15 ∧
    (scoredCards (calculateScore exampleBrowser (newCalculator getDefaultScores)
      exampleDeck).1).map (fun card => (card.cid, card.count, card.totalScore)) =
      [("18050", 3, .fin 15)] := by
  have hperm := objectEntries_perm (extractCardData this doc).cardCounts
  have hr := exactRange_perm this.scores _ _ hperm hrange
  have hnn' : ∀ p ∈ objectEntries (extractCardData this doc).cardCounts,
      0 ≤ (getScoreByCID this.scores p.1).toInt :=
    fun p hp => hnn p (hperm.mem_iff.mp hp)
  have hprod := exactRange_prod _ _ hr
  have hsc : scoredCards (calculateScore browser this doc).1 =
      scoredCardsOf this.scores (extractCardData this doc).cidToNameMap
        (objectEntries (extractCardData this doc).cardCounts) := rfl
  have hcc : (calculateScore browser this doc).1.cardCounts =
      (extractCardData this doc).cardCounts := rfl
  rw [hsc, hcc]
  refine ⟨?_, ?_, ?_, ?_, by decide, by decide⟩
  · intro p hp hnot
    have hgt : (getScoreByCID this.scores p.1).gt (.fin 0) = false := by
      cases hg : (getScoreByCID this.scores p.1).gt (.fin 0) with
      | false => rfl
      | true =>
        exfalso
        apply hnot (mkScoredCard this.scores (extractCardData this doc).cidToNameMap p) _ rfl
        refine (jsSort_perm _ _).mem_iff.mpr ?_
        unfold visibleCards
        rw [List.mem_filter]
        exact ⟨List.mem_map_of_mem _ hp, hg⟩
    rw [fin_zero_of_not_gt _ (hr.1 p hp) (hnn' p hp) hgt]
    apply mul_zero_ofNat
    rw [ofNat_of_le _ (hr.2.1 p hp)]
    rfl
  · intro card hcard
    have hc' : card ∈ visibleCards this.scores (extractCardData this doc).cidToNameMap
        (objectEntries (extractCardData this doc).cardCounts) :=
      (jsSort_perm _ _).mem_iff.mp hcard
    unfold visibleCards at hc'
    rw [List.mem_filter, List.mem_map] at hc'
    obtain ⟨⟨p, hp, rfl⟩, -⟩ := hc'
    show (JSNum.mul (getScoreByCID this.scores p.1) (JSNum.ofNat p.2)).isFinite = true
    rw [eq_fin_toInt_of_isFinite _ (hr.1 p hp),
      mul_fin_ofNat_exact _ _ (hr.2.1 p hp) (hprod p hp)]
    rfl
  · show scoreLoop (extractCardData this doc).scores
      (objectEntries (extractCardData this doc).cardCounts) = _
    have hs : (extractCardData this doc).scores = this.scores := rfl
    rw [hs, scoreLoop_exact _ _ hr,
      ← visibleCards_sum_exact this.scores (extractCardData this doc).cidToNameMap _
        hr.1 hr.2.1 hprod hnn']
    congr 1
    exact (((jsSort_perm _ _).map _).sum_eq).symm
  · exact cardList_mem browser _ doc

set_option maxRecDepth 100000 in
/-- Witness for C10: the default table and the example deck, with three copies of the
scored card 18050 and three cards without a score. -/
theorem breakdown_sum_of_nonneg_witness :
    ExactRange (newCalculator getDefaultScores).scores
      (extractCardData (newCalculator getDefaultScores) exampleDeck).cardCounts ∧
    (calculateScore exampleBrowser (newCalculator getDefaultScores) exampleDeck).1.totalScore =
      .fin (((scoredCards (calculateScore exampleBrowser (newCalculator getDefaultScores)
        exampleDeck).1).map (fun card => card.totalScore.toInt)).sum) :=
  ⟨by unfold ExactRange; decide,
   (breakdown_sum_of_nonneg exampleBrowser (newCalculator getDefaultScores) exampleDeck
      (by unfold ExactRange; decide) (by decide)).2.2.1⟩

end DeckScore
